import Mathlib

/-!
Verification of the VICE-snapshot-to-PRG/CRT converter.

Byte buffers (the 64 KiB RAM image, parser input, emitted cartridge files,
generated 6502 code) are shallowly embedded as natural numbers in base 256,
little-endian: the byte at address `a` of buffer `m` is `m / 256 ^ a % 256`.
This keeps every read, write and contiguous-slice operation a constant number
of arithmetic operations, which both the proofs and the kernel evaluation of
concrete test vectors rely on.
-/

set_option exponentiation.threshold 600000

namespace VSnap

/-- A byte buffer (e.g. the 64 KiB RAM image), base-256 little-endian. -/
abbrev Mem := Nat

/-- Read the byte stored at address `a`. -/
def getByte (m : Mem) (a : Nat) : Nat := m / 256 ^ a % 256

/-- Read `len` consecutive bytes starting at address `a`, as a base-256 value. -/
def readRange (m : Mem) (a len : Nat) : Nat := m / 256 ^ a % 256 ^ len

/-- Overwrite the `len` bytes starting at address `a` with the base-256 value
`v` (only the low `len` bytes of `v` are used). -/
def setBytes (m : Mem) (a : Nat) (v : Nat) (len : Nat) : Mem :=
  m % 256 ^ a + v % 256 ^ len * 256 ^ a + m / 256 ^ (a + len) * 256 ^ (a + len)

/-- Write the single byte `v` at address `a`. -/
def setByte (m : Mem) (a : Nat) (v : Nat) : Mem := setBytes m a v 1

theorem getByte_lt (m : Mem) (a : Nat) : getByte m a < 256 :=
  Nat.mod_lt _ (by norm_num)

theorem pow256_pos (n : Nat) : 0 < 256 ^ n := Nat.pos_pow_of_pos n (by norm_num)

/-- Bytes strictly below a multiple of `256 ^ a` are unaffected by it. -/
theorem getByte_add_mul_high (x K a b : Nat) (h : b < a) :
    getByte (x + K * 256 ^ a) b = getByte x b := by
  obtain ⟨c, rfl⟩ : ∃ c, a = b + (c + 1) :=
    ⟨a - b - 1, by omega⟩
  unfold getByte
  have h1 : 256 ^ (b + (c + 1)) = 256 ^ (c + 1) * 256 ^ b := by
    rw [← pow_add]; ring_nf
  rw [h1, ← mul_assoc, Nat.add_mul_div_right _ _ (pow256_pos b)]
  have h2 : K * 256 ^ (c + 1) = K * 256 ^ c * 256 := by ring
  rw [h2, Nat.add_mul_mod_self_right]

/-- Reading a byte below the cut keeps its value after a `mod`. -/
theorem getByte_mod_low (m a b : Nat) (h : b < a) :
    getByte (m % 256 ^ a) b = getByte m b := by
  conv_rhs => rw [← Nat.mod_add_div' m (256 ^ a)]
  rw [getByte_add_mul_high _ _ _ _ h]

/-- Reading at offset `a + i` of `x + W * 256 ^ a` with `x < 256 ^ a` reads
byte `i` of `W`. -/
theorem getByte_add_mul_of_lt (x W a i : Nat) (hx : x < 256 ^ a) :
    getByte (x + W * 256 ^ a) (a + i) = getByte W i := by
  unfold getByte
  rw [pow_add, ← Nat.div_div_eq_div_mul,
    Nat.add_mul_div_right _ _ (pow256_pos a), Nat.div_eq_of_lt hx, Nat.zero_add]

/-- Reading a byte at or above the cut of a `mod` yields zero. -/
theorem getByte_mod_high (m a b : Nat) (h : a ≤ b) :
    getByte (m % 256 ^ a) b = 0 := by
  unfold getByte
  have h1 : m % 256 ^ a < 256 ^ b :=
    lt_of_lt_of_le (Nat.mod_lt _ (pow256_pos a)) (Nat.pow_le_pow_right (by norm_num) h)
  rw [Nat.div_eq_of_lt h1]

/-- Reading from a shifted-down buffer reads the shifted address. -/
theorem getByte_div (m a b : Nat) :
    getByte (m / 256 ^ a) b = getByte m (a + b) := by
  unfold getByte
  rw [Nat.div_div_eq_div_mul, ← pow_add]

/-- Any byte of a small number beyond its width is zero. -/
theorem getByte_of_lt_pow (m a b : Nat) (hm : m < 256 ^ a) (h : a ≤ b) :
    getByte m b = 0 := by
  unfold getByte
  have h1 : m < 256 ^ b := lt_of_lt_of_le hm (Nat.pow_le_pow_right (by norm_num) h)
  rw [Nat.div_eq_of_lt h1]

/-- Characterization of `readRange`: byte `i` of the slice is byte `a + i` of
the buffer when `i < len`, and zero beyond the slice. -/
theorem getByte_readRange (m a len i : Nat) :
    getByte (readRange m a len) i = if i < len then getByte m (a + i) else 0 := by
  unfold readRange
  split
  · rw [getByte_mod_low _ _ _ (by assumption), getByte_div]
  · exact getByte_mod_high _ _ _ (by omega)

/-- Characterization of `setBytes`: bytes in `[a, a + len)` come from `v`,
all others are untouched. -/
theorem getByte_setBytes (m a v len b : Nat) :
    getByte (setBytes m a v len) b =
      if a ≤ b ∧ b < a + len then getByte v (b - a) else getByte m b := by
  unfold setBytes
  have hEa : 0 < 256 ^ a := pow256_pos a
  have hEl : 0 < 256 ^ len := pow256_pos len
  have hsplit : 256 ^ (a + len) = 256 ^ a * 256 ^ len := pow_add 256 a len
  by_cases hb : b < a
  · -- below the written range
    rw [if_neg (by omega)]
    have h1 : m % 256 ^ a + v % 256 ^ len * 256 ^ a +
        m / 256 ^ (a + len) * 256 ^ (a + len) =
        m % 256 ^ a +
          (v % 256 ^ len + m / 256 ^ (a + len) * 256 ^ len) * 256 ^ a := by
      rw [hsplit]; ring
    rw [h1, getByte_add_mul_high _ _ _ _ hb, getByte_mod_low _ _ _ hb]
  · by_cases hb2 : b < a + len
    · -- inside the written range
      rw [if_pos ⟨by omega, hb2⟩]
      obtain ⟨i, rfl⟩ : ∃ i, b = a + i := ⟨b - a, by omega⟩
      have hi : i < len := by omega
      have h1 : m % 256 ^ a + v % 256 ^ len * 256 ^ a +
          m / 256 ^ (a + len) * 256 ^ (a + len) =
          m % 256 ^ a +
            (v % 256 ^ len + m / 256 ^ (a + len) * 256 ^ len) * 256 ^ a := by
        rw [hsplit]; ring
      rw [h1, getByte_add_mul_of_lt _ _ _ _ (Nat.mod_lt _ hEa),
        getByte_add_mul_high _ _ _ _ hi, getByte_mod_low _ _ _ hi,
        Nat.add_sub_cancel_left]
    · -- above the written range
      rw [if_neg (by omega)]
      have hlow : m % 256 ^ a + v % 256 ^ len * 256 ^ a < 256 ^ (a + len) := by
        have h3 : m % 256 ^ a < 256 ^ a := Nat.mod_lt _ hEa
        have h4 : v % 256 ^ len < 256 ^ len := Nat.mod_lt _ hEl
        have h5 : v % 256 ^ len * 256 ^ a ≤ (256 ^ len - 1) * 256 ^ a :=
          Nat.mul_le_mul_right _ (by omega)
        have h6 : (256 ^ len - 1) * 256 ^ a = 256 ^ len * 256 ^ a - 256 ^ a :=
          Nat.sub_one_mul _ _
        have h7 : 256 ^ a ≤ 256 ^ len * 256 ^ a := Nat.le_mul_of_pos_left _ hEl
        have h8 : 256 ^ (a + len) = 256 ^ len * 256 ^ a := by rw [pow_add]; ring
        omega
      obtain ⟨j, rfl⟩ : ∃ j, b = (a + len) + j := ⟨b - (a + len), by omega⟩
      have h1 : getByte (m % 256 ^ a + v % 256 ^ len * 256 ^ a +
          m / 256 ^ (a + len) * 256 ^ (a + len)) (a + len + j) =
          getByte ((m % 256 ^ a + v % 256 ^ len * 256 ^ a +
            m / 256 ^ (a + len) * 256 ^ (a + len)) / 256 ^ (a + len)) j := by
        rw [getByte_div]
      rw [h1, Nat.add_mul_div_right _ _ (pow256_pos (a + len)),
        Nat.div_eq_of_lt hlow, Nat.zero_add, getByte_div]

/-- Characterization of the single-byte write. -/
theorem getByte_setByte (m a v b : Nat) :
    getByte (setByte m a v) b = if b = a then v % 256 else getByte m b := by
  unfold setByte
  rw [getByte_setBytes]
  by_cases hb : b = a
  · subst hb
    rw [if_pos ⟨le_refl b, by omega⟩, if_pos rfl, Nat.sub_self]
    unfold getByte
    rw [pow_zero, Nat.div_one]
  · rw [if_neg (by omega), if_neg hb]

end VSnap

namespace VSnap

/-! ## RAM finder (src/find_ram.rs)

`FindRam::new` scans `$0200..=$FFEF` for runs of at least 32 identical
bytes; `allocate` hands out the best-fitting block.  The Rust `while`
loops are embedded as fuel-indexed tail recursions; the fuel `0x10000`
strictly dominates the number of iterations either loop can make. -/

/-- Mirrors `RamBlock` of `find_ram.rs`. -/
structure RamBlock where
  address : Nat
  value   : Nat
  count   : Nat
deriving Repr, DecidableEq

/-- Mirrors `FindRam` of `find_ram.rs`: the list of free blocks. -/
structure FindRam where
  blocks : List RamBlock
deriving Repr, DecidableEq

def START_ADDR : Nat := 0x0200
def END_ADDR : Nat := 0xFFEF
def MIN_SEQUENCE_LEN : Nat := 32

/-- The inner run-length loop of `FindRam::new`: starting from `count`
already-matched bytes, extend the run while the next byte equals `v` and
the scan stays at or below `END_ADDR`. -/
def runLenAux (ram : Mem) (addr v : Nat) : Nat → Nat → Nat
  | count, 0 => count
  | count, fuel + 1 =>
    if addr + count ≤ END_ADDR ∧ getByte ram (addr + count) = v then
      runLenAux ram addr v (count + 1) fuel
    else count

/-- Length of the run of bytes equal to `ram[addr]` starting at `addr`. -/
def runLen (ram : Mem) (addr : Nat) : Nat :=
  runLenAux ram addr (getByte ram addr) 1 0x10000

/-- The outer scan loop of `FindRam::new`: at each address at or below
`END_ADDR`, measure the run length; emit a block and skip the run when it
reaches `MIN_SEQUENCE_LEN`, otherwise advance one byte. -/
def scanGo (ram : Mem) : Nat → Nat → List RamBlock → List RamBlock
  | 0, _, blocks => blocks
  | fuel + 1, addr, blocks =>
    if addr ≤ END_ADDR then
      if MIN_SEQUENCE_LEN ≤ runLen ram addr then
        scanGo ram fuel (addr + runLen ram addr)
          (blocks ++ [⟨addr, getByte ram addr, runLen ram addr⟩])
      else scanGo ram fuel (addr + 1) blocks
    else blocks

/-- Mirrors `FindRam::new`. -/
def FindRam.new (ram : Mem) : FindRam :=
  ⟨scanGo ram 0x10000 START_ADDR []⟩

/-- One step of the `enumerate().filter(count ≥ n).min_by_key(count)` of
`FindRam::allocate`: fold the candidate `(index, count)` through block `b`
at index `i`, keeping the earlier candidate on ties (Rust `min_by_key`
keeps the first minimum). -/
def bestUpdate (n i : Nat) (b : RamBlock) : Option (Nat × Nat) → Option (Nat × Nat)
  | none => if n ≤ b.count then some (i, b.count) else none
  | some (bi, bc) =>
    if n ≤ b.count then
      if b.count < bc then some (i, b.count) else some (bi, bc)
    else some (bi, bc)

/-- The best-fit fold over the block list. -/
def bestFitAux (n : Nat) : List RamBlock → Nat → Option (Nat × Nat) → Option (Nat × Nat)
  | [], _, best => best
  | b :: rest, i, best => bestFitAux n rest (i + 1) (bestUpdate n i b best)

/-- Index of the best-fit block for a request of `n` bytes, if any. -/
def bestFit (n : Nat) (blocks : List RamBlock) : Option Nat :=
  (bestFitAux n blocks 0 none).map Prod.fst

/-- Mirrors `FindRam::allocate`: returns the allocation result together
with the updated allocator state. -/
def FindRam.allocate (f : FindRam) (requested : Nat) :
    Option (Nat × Nat) × FindRam :=
  if requested = 0 then (none, f)
  else
    match bestFit requested f.blocks with
    | none => (none, f)
    | some i =>
      match f.blocks[i]? with
      | none => (none, f)
      | some b =>
        let remaining := b.count - requested
        if remaining = 0 then
          (some (b.address, b.value), ⟨f.blocks.eraseIdx i⟩)
        else
          (some (b.address, b.value),
            ⟨f.blocks.set i ⟨b.address + requested, b.value, remaining⟩⟩)

/-- Applying a sequence of allocation requests in order. -/
def allocSeq (f : FindRam) : List Nat → FindRam
  | [] => f
  | n :: ns => allocSeq (f.allocate n).2 ns

end VSnap

namespace VSnap

/-! ### Run-length loop lemmas -/

theorem getByte_zero (a : Nat) : getByte 0 a = 0 := by
  simp [getByte]

theorem runLenAux_ge (ram addr v : Nat) :
    ∀ fuel count, count ≤ runLenAux ram addr v count fuel := by
  intro fuel
  induction fuel with
  | zero => intro count; simp [runLenAux]
  | succ f ih =>
    intro count
    unfold runLenAux
    split
    · exact le_trans (Nat.le_succ count) (ih (count + 1))
    · exact le_refl count

theorem runLenAux_bytes (ram addr v : Nat) :
    ∀ fuel count, (∀ j, j < count → getByte ram (addr + j) = v) →
      ∀ j, j < runLenAux ram addr v count fuel → getByte ram (addr + j) = v := by
  intro fuel
  induction fuel with
  | zero => intro count h j hj; unfold runLenAux at hj; exact h j hj
  | succ f ih =>
    intro count h j hj
    unfold runLenAux at hj
    split at hj
    · rename_i hc
      refine ih (count + 1) ?_ j hj
      intro i hi
      rcases Nat.lt_succ_iff_lt_or_eq.1 hi with h1 | h1
      · exact h i h1
      · subst h1
        exact hc.2
    · exact h j hj

theorem runLenAux_le_end (ram addr v : Nat) :
    ∀ fuel count, addr + count ≤ END_ADDR + 1 →
      addr + runLenAux ram addr v count fuel ≤ END_ADDR + 1 := by
  intro fuel
  induction fuel with
  | zero => intro count h; unfold runLenAux; exact h
  | succ f ih =>
    intro count h
    unfold runLenAux
    split
    · rename_i hc
      exact ih (count + 1) (by omega)
    · exact h

theorem runLenAux_le_of_mismatch (ram addr v j : Nat)
    (hj : getByte ram (addr + j) ≠ v) :
    ∀ fuel count, count ≤ j → runLenAux ram addr v count fuel ≤ j := by
  intro fuel
  induction fuel with
  | zero => intro count h; unfold runLenAux; exact h
  | succ f ih =>
    intro count h
    unfold runLenAux
    split
    · rename_i hc
      rcases Nat.lt_or_ge count j with h1 | h1
      · exact ih (count + 1) h1
      · exfalso
        have : count = j := by omega
        subst this
        exact hj hc.2
    · exact h

theorem runLenAux_ge_of_run (ram addr v k : Nat)
    (h : ∀ j, j < k → getByte ram (addr + j) = v)
    (hk : addr + k ≤ END_ADDR + 1) :
    ∀ fuel count, count ≤ k → k ≤ count + fuel →
      k ≤ runLenAux ram addr v count fuel := by
  intro fuel
  induction fuel with
  | zero => intro count h1 h2; unfold runLenAux; omega
  | succ f ih =>
    intro count h1 h2
    rcases Nat.lt_or_ge count k with hc | hc
    · unfold runLenAux
      rw [if_pos ⟨by omega, h (by exact count) hc⟩]
      exact ih (count + 1) hc (by omega)
    · have := runLenAux_ge ram addr v (f + 1) count
      omega

theorem runLen_ge_one (ram addr : Nat) : 1 ≤ runLen ram addr :=
  runLenAux_ge ram addr _ _ 1

theorem runLen_bytes (ram addr : Nat) :
    ∀ j, j < runLen ram addr → getByte ram (addr + j) = getByte ram addr := by
  intro j hj
  refine runLenAux_bytes ram addr _ _ 1 ?_ j hj
  intro j' hj'
  have : j' = 0 := by omega
  subst this
  rw [Nat.add_zero]

theorem runLen_le_end (ram addr : Nat) (h : addr ≤ END_ADDR) :
    addr + runLen ram addr ≤ END_ADDR + 1 :=
  runLenAux_le_end ram addr _ _ 1 (by omega)

theorem runLen_le_of_mismatch (ram addr j : Nat) (hj1 : 1 ≤ j)
    (hj : getByte ram (addr + j) ≠ getByte ram addr) :
    runLen ram addr ≤ j :=
  runLenAux_le_of_mismatch ram addr _ j hj _ 1 hj1

theorem runLen_eq_of_run (ram addr k : Nat)
    (h : ∀ j, j < k → getByte ram (addr + j) = getByte ram addr)
    (hm : getByte ram (addr + k) ≠ getByte ram addr)
    (hk : addr + k ≤ END_ADDR + 1) (hk1 : 1 ≤ k) :
    runLen ram addr = k := by
  refine le_antisymm (runLen_le_of_mismatch ram addr k hk1 hm) ?_
  refine runLenAux_ge_of_run ram addr _ k h hk _ 1 hk1 ?_
  unfold END_ADDR at hk
  omega

theorem runLenAux_const (ram v : Nat) (hz : ∀ x, getByte ram x = v) :
    ∀ fuel count addr, runLenAux ram addr v count fuel =
      count + min fuel (END_ADDR + 1 - (addr + count)) := by
  intro fuel
  induction fuel with
  | zero => intro count addr; simp [runLenAux]
  | succ f ih =>
    intro count addr
    unfold runLenAux
    by_cases h : addr + count ≤ END_ADDR
    · rw [if_pos ⟨h, hz _⟩, ih]
      omega
    · rw [if_neg (by intro hc; exact h hc.1)]
      omega

theorem runLen_allzero (addr : Nat) (h : addr ≤ END_ADDR) :
    runLen 0 addr = END_ADDR + 1 - addr := by
  unfold runLen
  rw [getByte_zero, runLenAux_const 0 0 getByte_zero]
  unfold END_ADDR at h ⊢
  omega

/-! ### Outer scan loop lemmas -/

theorem scanGo_done (ram : Mem) (fuel addr : Nat) (blocks : List RamBlock)
    (h : END_ADDR < addr) : scanGo ram fuel addr blocks = blocks := by
  cases fuel with
  | zero => rw [scanGo]
  | succ f => rw [scanGo, if_neg (by omega)]

theorem scanGo_skip (ram : Mem) :
    ∀ (d addr fuel : Nat) (blocks : List RamBlock),
      (∀ p, addr ≤ p → p < addr + d → runLen ram p < MIN_SEQUENCE_LEN) →
      addr + d ≤ END_ADDR + 1 → d ≤ fuel →
      scanGo ram fuel addr blocks = scanGo ram (fuel - d) (addr + d) blocks := by
  intro d
  induction d with
  | zero => intro addr fuel blocks _ _ _; rfl
  | succ d ih =>
    intro addr fuel blocks h hEnd hFuel
    obtain ⟨f, rfl⟩ : ∃ f, fuel = f + 1 := ⟨fuel - 1, by omega⟩
    rw [scanGo, if_pos (by omega),
      if_neg (by have := h addr (le_refl addr) (by omega); omega)]
    have e1 : f + 1 - (d + 1) = f - d := by omega
    have e2 : addr + (d + 1) = addr + 1 + d := by omega
    rw [e1, e2]
    exact ih (addr + 1) f blocks (fun p h1 h2 => h p (by omega) (by omega))
      (by omega) (by omega)

theorem scanGo_emit (ram : Mem) (addr fuel : Nat) (blocks : List RamBlock)
    (h1 : addr ≤ END_ADDR) (h2 : MIN_SEQUENCE_LEN ≤ runLen ram addr) :
    scanGo ram (fuel + 1) addr blocks =
      scanGo ram fuel (addr + runLen ram addr)
        (blocks ++ [⟨addr, getByte ram addr, runLen ram addr⟩]) := by
  rw [scanGo, if_pos h1, if_pos h2]

/-- Every block the scan loop emits has a run of at least 32 bytes all
equal to its recorded value (the construction invariant). -/
theorem scanGo_inv (ram : Mem) :
    ∀ (fuel addr : Nat) (blocks : List RamBlock),
      (∀ b ∈ blocks, MIN_SEQUENCE_LEN ≤ b.count ∧
        ∀ j, j < b.count → getByte ram (b.address + j) = b.value) →
      ∀ b ∈ scanGo ram fuel addr blocks, MIN_SEQUENCE_LEN ≤ b.count ∧
        ∀ j, j < b.count → getByte ram (b.address + j) = b.value := by
  intro fuel
  induction fuel with
  | zero => intro addr blocks h; rw [scanGo]; exact h
  | succ f ih =>
    intro addr blocks h
    rw [scanGo]
    by_cases h1 : addr ≤ END_ADDR
    · rw [if_pos h1]
      by_cases h2 : MIN_SEQUENCE_LEN ≤ runLen ram addr
      · rw [if_pos h2]
        refine ih _ _ ?_
        intro b hb
        rcases List.mem_append.1 hb with hb | hb
        · exact h b hb
        · rcases List.mem_singleton.1 hb with rfl
          exact ⟨h2, fun j hj => runLen_bytes ram addr j hj⟩
      · rw [if_neg h2]
        exact ih _ _ h
    · rw [if_neg h1]
      exact h

end VSnap


namespace VSnap

/-! ### Best-fit search lemmas -/

theorem bestUpdate_none_eq (n i : Nat) (b : RamBlock) :
    bestUpdate n i b none = if n ≤ b.count then some (i, b.count) else none := rfl

theorem bestUpdate_some_eq (n i : Nat) (b : RamBlock) (bi bc : Nat) :
    bestUpdate n i b (some (bi, bc)) =
      if n ≤ b.count then
        if b.count < bc then some (i, b.count) else some (bi, bc)
      else some (bi, bc) := rfl

theorem bestUpdate_isSome (n i : Nat) (b : RamBlock) (bi bc : Nat) :
    bestUpdate n i b (some (bi, bc)) = some (i, b.count) ∨
    bestUpdate n i b (some (bi, bc)) = some (bi, bc) := by
  rw [bestUpdate_some_eq]
  by_cases he : n ≤ b.count
  · rw [if_pos he]
    by_cases hlt : b.count < bc
    · rw [if_pos hlt]; exact Or.inl rfl
    · rw [if_neg hlt]; exact Or.inr rfl
  · rw [if_neg he]; exact Or.inr rfl

theorem bestFitAux_ne_none (n : Nat) :
    ∀ (bs : List RamBlock) (i bi bc : Nat),
      bestFitAux n bs i (some (bi, bc)) ≠ none := by
  intro bs
  induction bs with
  | nil => intro i bi bc h; exact Option.noConfusion h
  | cons b rest ih =>
    intro i bi bc
    show bestFitAux n rest (i + 1) (bestUpdate n i b (some (bi, bc))) ≠ none
    rcases bestUpdate_isSome n i b bi bc with h | h <;> rw [h]
    · exact ih (i + 1) i b.count
    · exact ih (i + 1) bi bc

theorem bestFitAux_eq_none (n : Nat) :
    ∀ (bs : List RamBlock) (i : Nat) (best : Option (Nat × Nat)),
      bestFitAux n bs i best = none →
      best = none ∧ ∀ b ∈ bs, b.count < n := by
  intro bs
  induction bs with
  | nil =>
    intro i best h
    exact ⟨h, fun b hb => absurd hb (List.not_mem_nil b)⟩
  | cons b rest ih =>
    intro i best h
    replace h : bestFitAux n rest (i + 1) (bestUpdate n i b best) = none := h
    obtain ⟨h1, h2⟩ := ih (i + 1) _ h
    rcases best with _ | ⟨bi0, bc0⟩
    · rw [bestUpdate_none_eq] at h1
      by_cases he : n ≤ b.count
      · rw [if_pos he] at h1
        exact Option.noConfusion h1
      · refine ⟨rfl, fun b' hb' => ?_⟩
        rcases List.mem_cons.1 hb' with rfl | hb'
        · omega
        · exact h2 b' hb'
    · rcases bestUpdate_isSome n i b bi0 bc0 with hu | hu <;>
        rw [hu] at h1 <;> exact Option.noConfusion h1

theorem bestFitAux_complete (n : Nat) :
    ∀ (bs : List RamBlock) (i : Nat), (∀ b ∈ bs, b.count < n) →
      bestFitAux n bs i none = none := by
  intro bs
  induction bs with
  | nil => intro i _; rfl
  | cons b rest ih =>
    intro i h
    show bestFitAux n rest (i + 1) (bestUpdate n i b none) = none
    have hu : bestUpdate n i b none = none := by
      unfold bestUpdate
      rw [if_neg (by have := h b (List.mem_cons_self b rest); omega)]
    rw [hu]
    exact ih (i + 1) (fun b' hb' => h b' (List.mem_cons_of_mem b hb'))

theorem bestFitAux_some_spec (n : Nat) :
    ∀ (bs : List RamBlock) (i j c : Nat) (best : Option (Nat × Nat)),
      (∀ bi bc, best = some (bi, bc) → n ≤ bc) →
      bestFitAux n bs i best = some (j, c) →
      (best = some (j, c) ∧ ∀ b ∈ bs, n ≤ b.count → c ≤ b.count) ∨
      (∃ k b, bs[k]? = some b ∧ j = i + k ∧ c = b.count ∧ n ≤ b.count ∧
        (∀ b' ∈ bs, n ≤ b'.count → c ≤ b'.count) ∧
        (∀ bi bc, best = some (bi, bc) → c ≤ bc)) := by
  intro bs
  induction bs with
  | nil =>
    intro i j c best _ h
    exact Or.inl ⟨h, fun b hb => absurd hb (List.not_mem_nil b)⟩
  | cons b rest ih =>
    intro i j c best hbest h
    replace h : bestFitAux n rest (i + 1) (bestUpdate n i b best) = some (j, c) := h
    by_cases he : n ≤ b.count
    · rcases best with _ | ⟨bi0, bc0⟩
      · have hu : bestUpdate n i b none = some (i, b.count) := by
          unfold bestUpdate
          rw [if_pos he]
        rw [hu] at h
        rcases ih (i + 1) j c (some (i, b.count))
            (fun bi bc hh => by cases hh; exact he) h with
          ⟨heq, hmin⟩ | ⟨k, b', hk, hj, hc, hel, hmin, hacc⟩
        · cases heq
          refine Or.inr ⟨0, b, by simp, by omega, rfl, he, ?_, by simp⟩
          intro b' hb' he'
          rcases List.mem_cons.1 hb' with rfl | hb'
          · exact le_refl _
          · exact hmin b' hb' he'
        · have hcb : c ≤ b.count := hacc i b.count rfl
          refine Or.inr ⟨k + 1, b', by simpa using hk, by omega, hc, hel, ?_, by simp⟩
          intro b2 hb2 he2
          rcases List.mem_cons.1 hb2 with rfl | hb2
          · exact hcb
          · exact hmin b2 hb2 he2
      · have hbc0 : n ≤ bc0 := hbest bi0 bc0 rfl
        by_cases hlt : b.count < bc0
        · have hu : bestUpdate n i b (some (bi0, bc0)) = some (i, b.count) := by
            rw [bestUpdate_some_eq, if_pos he, if_pos hlt]
          rw [hu] at h
          rcases ih (i + 1) j c (some (i, b.count))
              (fun bi bc hh => by cases hh; exact he) h with
            ⟨heq, hmin⟩ | ⟨k, b', hk, hj, hc, hel, hmin, hacc⟩
          · cases heq
            refine Or.inr ⟨0, b, by simp, by omega, rfl, he, ?_, ?_⟩
            · intro b' hb' he'
              rcases List.mem_cons.1 hb' with rfl | hb'
              · exact le_refl _
              · exact hmin b' hb' he'
            · intro bi bc hh
              cases hh
              omega
          · have hcb : c ≤ b.count := hacc i b.count rfl
            refine Or.inr ⟨k + 1, b', by simpa using hk, by omega, hc, hel, ?_, ?_⟩
            · intro b2 hb2 he2
              rcases List.mem_cons.1 hb2 with rfl | hb2
              · exact hcb
              · exact hmin b2 hb2 he2
            · intro bi bc hh
              cases hh
              omega
        · have hu : bestUpdate n i b (some (bi0, bc0)) = some (bi0, bc0) := by
            rw [bestUpdate_some_eq, if_pos he, if_neg hlt]
          rw [hu] at h
          rcases ih (i + 1) j c (some (bi0, bc0))
              (fun bi bc hh => by cases hh; exact hbc0) h with
            ⟨heq, hmin⟩ | ⟨k, b', hk, hj, hc, hel, hmin, hacc⟩
          · cases heq
            refine Or.inl ⟨rfl, ?_⟩
            intro b' hb' he'
            rcases List.mem_cons.1 hb' with rfl | hb'
            · omega
            · exact hmin b' hb' he'
          · have hcb : c ≤ bc0 := hacc bi0 bc0 rfl
            refine Or.inr ⟨k + 1, b', by simpa using hk, by omega, hc, hel, ?_, ?_⟩
            · intro b2 hb2 he2
              rcases List.mem_cons.1 hb2 with rfl | hb2
              · omega
              · exact hmin b2 hb2 he2
            · intro bi bc hh
              cases hh
              exact hcb
    · have hu : bestUpdate n i b best = best := by
        rcases best with _ | ⟨bi0, bc0⟩
        · rw [bestUpdate_none_eq, if_neg he]
        · rw [bestUpdate_some_eq, if_neg he]
      rw [hu] at h
      rcases ih (i + 1) j c best hbest h with
        ⟨heq, hmin⟩ | ⟨k, b', hk, hj, hc, hel, hmin, hacc⟩
      · refine Or.inl ⟨heq, ?_⟩
        intro b' hb' he'
        rcases List.mem_cons.1 hb' with rfl | hb'
        · omega
        · exact hmin b' hb' he'
      · refine Or.inr ⟨k + 1, b', by simpa using hk, by omega, hc, hel, ?_, hacc⟩
        intro b2 hb2 he2
        rcases List.mem_cons.1 hb2 with rfl | hb2
        · omega
        · exact hmin b2 hb2 he2

theorem bestFit_none (n : Nat) (blocks : List RamBlock)
    (h : bestFit n blocks = none) : ∀ b ∈ blocks, b.count < n := by
  unfold bestFit at h
  rcases ho : bestFitAux n blocks 0 none with _ | p
  · exact (bestFitAux_eq_none n blocks 0 none ho).2
  · rw [ho] at h
    exact Option.noConfusion h

theorem bestFit_isSome (n : Nat) (blocks : List RamBlock)
    (h : ∃ b ∈ blocks, n ≤ b.count) : ∃ i, bestFit n blocks = some i := by
  rcases ho : bestFit n blocks with _ | i
  · obtain ⟨b, hb, hn⟩ := h
    have := bestFit_none n blocks ho b hb
    omega
  · exact ⟨i, rfl⟩

/-- The block chosen by `bestFit` can hold the request and has minimal
count among the blocks that can. -/
theorem bestFit_spec (n : Nat) (blocks : List RamBlock) (i : Nat)
    (h : bestFit n blocks = some i) :
    ∃ b, blocks[i]? = some b ∧ n ≤ b.count ∧
      ∀ b' ∈ blocks, n ≤ b'.count → b.count ≤ b'.count := by
  unfold bestFit at h
  rcases ho : bestFitAux n blocks 0 none with _ | ⟨j, c⟩
  · rw [ho] at h; exact Option.noConfusion h
  · rw [ho] at h
    have hji : j = i := by simpa using h
    subst hji
    rcases bestFitAux_some_spec n blocks 0 j c none
        (fun _ _ hh => Option.noConfusion hh) ho with
      ⟨heq, _⟩ | ⟨k, b, hk, hj, hc, hel, hmin, _⟩
    · exact Option.noConfusion heq
    · have hkj : k = j := by omega
      subst hkj
      subst hc
      exact ⟨b, hk, hel, hmin⟩

end VSnap

namespace VSnap

/-! ### Allocation characterization -/

theorem allocate_zero (f : FindRam) : f.allocate 0 = (none, f) := by
  unfold FindRam.allocate
  rw [if_pos rfl]

theorem allocate_fail (f : FindRam) (n : Nat) (hn : n ≠ 0)
    (h : bestFit n f.blocks = none) : f.allocate n = (none, f) := by
  unfold FindRam.allocate
  rw [if_neg hn, h]

theorem allocate_success_exact (f : FindRam) (n i : Nat) (b : RamBlock)
    (hn : n ≠ 0) (hi : bestFit n f.blocks = some i) (hb : f.blocks[i]? = some b)
    (hc : b.count - n = 0) :
    f.allocate n = (some (b.address, b.value), ⟨f.blocks.eraseIdx i⟩) := by
  unfold FindRam.allocate
  rw [if_neg hn, hi]
  dsimp only
  rw [hb]
  dsimp only
  rw [if_pos hc]

theorem allocate_success_split (f : FindRam) (n i : Nat) (b : RamBlock)
    (hn : n ≠ 0) (hi : bestFit n f.blocks = some i) (hb : f.blocks[i]? = some b)
    (hc : b.count - n ≠ 0) :
    f.allocate n = (some (b.address, b.value),
      ⟨f.blocks.set i ⟨b.address + n, b.value, b.count - n⟩⟩) := by
  unfold FindRam.allocate
  rw [if_neg hn, hi]
  dsimp only
  rw [hb]
  dsimp only
  rw [if_neg hc]

/-- The byte-content invariant of a free block: every byte in the block's
window of the source image equals the block's run value. -/
def blockBytesEq (ram : Mem) (b : RamBlock) : Prop :=
  ∀ j, j < b.count → getByte ram (b.address + j) = b.value

theorem allocate_preserves_inv (ram : Mem) (f : FindRam) (n : Nat)
    (hInv : ∀ b ∈ f.blocks, blockBytesEq ram b) :
    (∀ b ∈ (f.allocate n).2.blocks, blockBytesEq ram b) ∧
    (∀ a v, (f.allocate n).1 = some (a, v) →
      ∀ j, j < n → getByte ram (a + j) = v) := by
  by_cases hn : n = 0
  · subst hn
    rw [allocate_zero]
    exact ⟨hInv, fun a v hav => Option.noConfusion hav⟩
  · rcases ho : bestFit n f.blocks with _ | i
    · rw [allocate_fail f n hn ho]
      exact ⟨hInv, fun a v hav => Option.noConfusion hav⟩
    · obtain ⟨b, hb, hel, hmin⟩ := bestFit_spec n f.blocks i ho
      have hmem : b ∈ f.blocks := List.getElem?_mem hb
      have hwin : ∀ a v, some (b.address, b.value) = some (a, v) →
          ∀ j, j < n → getByte ram (a + j) = v := by
        intro a v hav j hj
        cases hav
        exact hInv b hmem j (by omega)
      by_cases hc : b.count - n = 0
      · rw [allocate_success_exact f n i b hn ho hb hc]
        refine ⟨fun b' hb' => hInv b' (List.mem_of_mem_eraseIdx hb'), hwin⟩
      · rw [allocate_success_split f n i b hn ho hb hc]
        refine ⟨fun b' hb' => ?_, hwin⟩
        rcases List.mem_or_eq_of_mem_set hb' with hb' | rfl
        · exact hInv b' hb'
        · intro j hj
          simp only []
          have : b.address + n + j = b.address + (n + j) := by omega
          rw [this]
          exact hInv b hmem (n + j) (by simp at hj; omega)

theorem allocSeq_inv (ram : Mem) :
    ∀ (ns : List Nat) (f : FindRam),
      (∀ b ∈ f.blocks, blockBytesEq ram b) →
      ∀ b ∈ (allocSeq f ns).blocks, blockBytesEq ram b := by
  intro ns
  induction ns with
  | nil => intro f h; exact h
  | cons n ns ih =>
    intro f h
    exact ih (f.allocate n).2 (allocate_preserves_inv ram f n h).1

theorem new_blocks_eq (ram : Mem) :
    (FindRam.new ram).blocks = scanGo ram 0x10000 START_ADDR [] := rfl

theorem new_inv (ram : Mem) :
    ∀ b ∈ (FindRam.new ram).blocks, MIN_SEQUENCE_LEN ≤ b.count ∧
      blockBytesEq ram b := by
  intro b hb
  rw [new_blocks_eq] at hb
  exact scanGo_inv ram 0x10000 START_ADDR []
    (fun b' hb' => absurd hb' (List.not_mem_nil b')) b hb

end VSnap

namespace VSnap

/-! ### Concrete scan fixtures

The test images from the specification: the all-zero 64 KiB image, and an
image whose bytes alternate `0`/`1` (so no spurious run exists) except for
one run of 31 resp. 32 identical bytes. -/

theorem setBytes_lt (m a v len L : Nat) (hm : m < 256 ^ L) (hL : a + len ≤ L) :
    setBytes m a v len < 256 ^ L := by
  unfold setBytes
  have hEa : 0 < 256 ^ a := pow256_pos a
  have hEl : 0 < 256 ^ len := pow256_pos len
  have hlow : m % 256 ^ a + v % 256 ^ len * 256 ^ a < 256 ^ (a + len) := by
    have h3 : m % 256 ^ a < 256 ^ a := Nat.mod_lt _ hEa
    have h4 : v % 256 ^ len < 256 ^ len := Nat.mod_lt _ hEl
    have h5 : v % 256 ^ len * 256 ^ a ≤ (256 ^ len - 1) * 256 ^ a :=
      Nat.mul_le_mul_right _ (by omega)
    have h6 : (256 ^ len - 1) * 256 ^ a = 256 ^ len * 256 ^ a - 256 ^ a :=
      Nat.sub_one_mul _ _
    have h7 : 256 ^ a ≤ 256 ^ len * 256 ^ a := Nat.le_mul_of_pos_left _ hEl
    have h8 : 256 ^ (a + len) = 256 ^ len * 256 ^ a := by rw [pow_add]; ring
    omega
  have hsplit : 256 ^ (a + len) * 256 ^ (L - (a + len)) = 256 ^ L := by
    rw [← pow_add]
    congr 1
    omega
  have hq : m / 256 ^ (a + len) < 256 ^ (L - (a + len)) := by
    apply Nat.div_lt_of_lt_mul
    rw [hsplit]
    exact hm
  have hq2 : m / 256 ^ (a + len) * 256 ^ (a + len) ≤
      (256 ^ (L - (a + len)) - 1) * 256 ^ (a + len) :=
    Nat.mul_le_mul_right _ (by omega)
  have key : 256 ^ (a + len) + (256 ^ (L - (a + len)) - 1) * 256 ^ (a + len) =
      256 ^ L := by
    rw [Nat.sub_one_mul]
    have h1 : 256 ^ (a + len) ≤ 256 ^ (L - (a + len)) * 256 ^ (a + len) :=
      Nat.le_mul_of_pos_left _ (pow256_pos _)
    have h2 : 256 ^ (L - (a + len)) * 256 ^ (a + len) = 256 ^ L := by
      rw [← pow_add]
      congr 1
      omega
    omega
  have step1 : m % 256 ^ a + v % 256 ^ len * 256 ^ a +
      m / 256 ^ (a + len) * 256 ^ (a + len) <
      256 ^ (a + len) + m / 256 ^ (a + len) * 256 ^ (a + len) :=
    Nat.add_lt_add_right hlow _
  have step2 : 256 ^ (a + len) + m / 256 ^ (a + len) * 256 ^ (a + len) ≤
      256 ^ (a + len) + (256 ^ (L - (a + len)) - 1) * 256 ^ (a + len) :=
    Nat.add_le_add_left hq2 _
  have step3 := lt_of_lt_of_le step1 step2
  rw [key] at step3
  exact step3

/-- A run of `k` copies of the byte `v` (as a base-256 value). -/
def constRun (v : Nat) : Nat → Nat
  | 0 => 0
  | k + 1 => setByte (constRun v k) k v

theorem constRun_lt (v : Nat) : ∀ k, constRun v k < 256 ^ k := by
  intro k
  induction k with
  | zero => rw [constRun]; exact pow256_pos 0
  | succ n ih =>
    rw [constRun]
    exact setBytes_lt _ _ _ _ _ (lt_trans ih (by
      exact Nat.pow_lt_pow_right (by norm_num) (Nat.lt_succ_self n))) (by omega)

theorem constRun_byte (v : Nat) :
    ∀ k j, j < k → getByte (constRun v k) j = v % 256 := by
  intro k
  induction k with
  | zero => intro j hj; omega
  | succ n ih =>
    intro j hj
    rw [constRun]
    unfold setByte
    rw [getByte_setBytes]
    by_cases hjn : j = n
    · subst hjn
      rw [if_pos ⟨le_refl j, by omega⟩, Nat.sub_self]
      unfold getByte
      rw [pow_zero, Nat.div_one]
    · rw [if_neg (by omega)]
      exact ih j (by omega)

/-- `k` byte pairs `0x00 0x01`: the alternating background image. -/
def altMem : Nat → Mem
  | 0 => 0
  | k + 1 => setBytes (altMem k) (2 * k) 0x0100 2

theorem altMem_lt : ∀ k, altMem k < 256 ^ (2 * k) := by
  intro k
  induction k with
  | zero => rw [altMem]; exact pow256_pos 0
  | succ n ih =>
    rw [altMem]
    refine setBytes_lt _ _ _ _ _ (lt_trans ih ?_) (by omega)
    exact Nat.pow_lt_pow_right (by norm_num) (by omega)

theorem altMem_byte : ∀ k x, x < 2 * k → getByte (altMem k) x = x % 2 := by
  intro k
  induction k with
  | zero => intro x hx; omega
  | succ n ih =>
    intro x hx
    rw [altMem, getByte_setBytes]
    by_cases hlo : x < 2 * n
    · rw [if_neg (by omega)]
      exact ih x hlo
    · rw [if_pos ⟨by omega, by omega⟩]
      have hx2 : x = 2 * n ∨ x = 2 * n + 1 := by omega
      rcases hx2 with rfl | rfl
      · rw [Nat.sub_self]
        unfold getByte
        rw [pow_zero, Nat.div_one]
        omega
      · have h1 : 2 * n + 1 - 2 * n = 1 := by omega
        rw [h1]
        unfold getByte
        rw [pow_one]
        omega

end VSnap

namespace VSnap

theorem START_ADDR_eq : START_ADDR = 0x200 := rfl
theorem END_ADDR_eq : END_ADDR = 0xFFEF := rfl
theorem MIN_SEQUENCE_LEN_eq : MIN_SEQUENCE_LEN = 32 := rfl

/-- Scanning the all-zero image yields the single block `$0200..=$FFEF`. -/
theorem new_allzero : FindRam.new 0 = ⟨[⟨0x200, 0, 0xFDF0⟩]⟩ := by
  have hrl : runLen 0 START_ADDR = 0xFDF0 := by
    rw [runLen_allzero START_ADDR (by rw [START_ADDR_eq, END_ADDR_eq]; omega)]
    rw [START_ADDR_eq, END_ADDR_eq]
  have h1 : scanGo 0 0x10000 START_ADDR [] = [⟨0x200, 0, 0xFDF0⟩] := by
    rw [show (0x10000 : Nat) = 0xFFFF + 1 from rfl]
    rw [scanGo_emit 0 START_ADDR 0xFFFF []
      (by rw [START_ADDR_eq, END_ADDR_eq]; omega)
      (by rw [hrl, MIN_SEQUENCE_LEN_eq]; omega)]
    rw [hrl, getByte_zero, START_ADDR_eq]
    rw [scanGo_done 0 0xFFFF _ _ (by rw [END_ADDR_eq]; omega)]
    rfl
  show FindRam.mk (scanGo 0 0x10000 START_ADDR []) = _
  rw [h1]

/-- The image whose bytes alternate 0/1 except for a single run of 31
copies of the byte 2 at `$3000`. -/
def ram31 : Mem := setBytes (altMem 0x8000) 0x3000 (constRun 2 31) 31

/-- The image whose bytes alternate 0/1 except for a single run of 32
copies of the byte 2 at `$3000`. -/
def ram32 : Mem := setBytes (altMem 0x8000) 0x3000 (constRun 2 32) 32

theorem runImage_byte (k x : Nat) (hx : x < 0x10000) :
    getByte (setBytes (altMem 0x8000) 0x3000 (constRun 2 k) k) x =
      if 0x3000 ≤ x ∧ x < 0x3000 + k then 2 else x % 2 := by
  rw [getByte_setBytes]
  split
  · rename_i hin
    rw [constRun_byte 2 k (x - 0x3000) (by omega)]
  · rename_i hout
    exact altMem_byte 0x8000 x (by omega)

theorem ram31_byte (x : Nat) (hx : x < 0x10000) :
    getByte ram31 x = if 0x3000 ≤ x ∧ x < 0x3000 + 31 then 2 else x % 2 :=
  runImage_byte 31 x hx

theorem ram32_byte (x : Nat) (hx : x < 0x10000) :
    getByte ram32 x = if 0x3000 ≤ x ∧ x < 0x3000 + 32 then 2 else x % 2 :=
  runImage_byte 32 x hx

theorem ram31_runLen_lt (p : Nat) (h1 : 0x200 ≤ p) (h2 : p < 0xFFF0) :
    runLen ram31 p < MIN_SEQUENCE_LEN := by
  rw [MIN_SEQUENCE_LEN_eq]
  by_cases hw : 0x3000 ≤ p ∧ p < 0x301F
  · have hj : getByte ram31 (p + (0x301F - p)) ≠ getByte ram31 p := by
      have e : p + (0x301F - p) = 0x301F := by omega
      rw [e, ram31_byte 0x301F (by omega), ram31_byte p (by omega),
        if_neg (by omega), if_pos (by omega)]
      omega
    have := runLen_le_of_mismatch ram31 p _ (by omega) hj
    omega
  · have hj : getByte ram31 (p + 1) ≠ getByte ram31 p := by
      rw [ram31_byte (p + 1) (by omega), ram31_byte p (by omega)]
      by_cases hpw : 0x3000 ≤ p + 1 ∧ p + 1 < 0x3000 + 31
      · rw [if_pos hpw, if_neg (by omega)]
        omega
      · rw [if_neg hpw, if_neg (by omega)]
        omega
    have := runLen_le_of_mismatch ram31 p 1 (le_refl 1) hj
    have := runLen_ge_one ram31 p
    omega

/-- Scanning the 31-run image yields no block. -/
theorem new_ram31 : FindRam.new ram31 = ⟨[]⟩ := by
  have h1 : scanGo ram31 0x10000 START_ADDR [] = [] := by
    rw [START_ADDR_eq]
    rw [scanGo_skip ram31 0xFDF0 0x200 0x10000 []
      (fun p hp1 hp2 => ram31_runLen_lt p hp1 (by omega))
      (by rw [END_ADDR_eq]) (by omega)]
    rw [scanGo_done ram31 _ _ _ (by rw [END_ADDR_eq]; omega)]
  show FindRam.mk (scanGo ram31 0x10000 START_ADDR []) = _
  rw [h1]

theorem ram32_runLen_bg (p : Nat) (h1 : 0x200 ≤ p) (h2 : p < 0xFFF0)
    (h3 : p < 0x3000 ∨ 0x3020 ≤ p) : runLen ram32 p < MIN_SEQUENCE_LEN := by
  rw [MIN_SEQUENCE_LEN_eq]
  have hj : getByte ram32 (p + 1) ≠ getByte ram32 p := by
    rw [ram32_byte (p + 1) (by omega), ram32_byte p (by omega)]
    by_cases hpw : 0x3000 ≤ p + 1 ∧ p + 1 < 0x3000 + 32
    · rw [if_pos hpw, if_neg (by omega)]
      omega
    · rw [if_neg hpw, if_neg (by omega)]
      omega
  have := runLen_le_of_mismatch ram32 p 1 (le_refl 1) hj
  have := runLen_ge_one ram32 p
  omega

theorem ram32_runLen_at : runLen ram32 0x3000 = 32 := by
  have hbase : getByte ram32 0x3000 = 2 := by
    rw [ram32_byte 0x3000 (by omega), if_pos (by omega)]
  refine runLen_eq_of_run ram32 0x3000 32 ?_ ?_ ?_ (by omega)
  · intro j hj
    rw [hbase, ram32_byte (0x3000 + j) (by omega), if_pos (by omega)]
  · rw [hbase, ram32_byte (0x3000 + 32) (by omega), if_neg (by omega)]
    omega
  · rw [END_ADDR_eq]
    omega

/-- Scanning the 32-run image yields exactly the one block at `$3000`. -/
theorem new_ram32 : FindRam.new ram32 = ⟨[⟨0x3000, 2, 32⟩]⟩ := by
  have hbase : getByte ram32 0x3000 = 2 := by
    rw [ram32_byte 0x3000 (by omega), if_pos (by omega)]
  have h1 : scanGo ram32 0x10000 START_ADDR [] = [⟨0x3000, 2, 32⟩] := by
    rw [START_ADDR_eq]
    rw [scanGo_skip ram32 0x2E00 0x200 0x10000 []
      (fun p hp1 hp2 => ram32_runLen_bg p hp1 (by omega) (by omega))
      (by rw [END_ADDR_eq]; omega) (by omega)]
    have e1 : (0x10000 : Nat) - 0x2E00 = 0xD1FF + 1 := by omega
    have e2 : (0x200 : Nat) + 0x2E00 = 0x3000 := by omega
    rw [e1, e2]
    rw [scanGo_emit ram32 0x3000 0xD1FF []
      (by rw [END_ADDR_eq]; omega)
      (by rw [ram32_runLen_at, MIN_SEQUENCE_LEN_eq])]
    rw [ram32_runLen_at, hbase]
    rw [scanGo_skip ram32 0xCFD0 (0x3000 + 32) 0xD1FF _
      (fun p hp1 hp2 => ram32_runLen_bg p (by omega) (by omega) (by omega))
      (by rw [END_ADDR_eq]) (by omega)]
    rw [scanGo_done ram32 _ _ _ (by rw [END_ADDR_eq]; omega)]
    rfl
  show FindRam.mk (scanGo ram32 0x10000 START_ADDR []) = _
  rw [h1]

end VSnap

namespace VSnap

/-! ## Claim theorems for the RAM finder -/

/-- C7: RAM-finder construction on a 64 KiB all-zero image yields exactly
one free block with address `$0200`, value 0 and count `0xFDF0`; on an
image with a single run of 31 identical bytes inside the scanned range it
yields no block; with a run of 32, exactly one block. -/
theorem C7_scan_enumeration :
    FindRam.new 0 = ⟨[⟨0x200, 0x00, 0xFDF0⟩]⟩ ∧
    FindRam.new ram31 = ⟨[]⟩ ∧
    FindRam.new ram32 = ⟨[⟨0x3000, 2, 32⟩]⟩ :=
  ⟨new_allzero, new_ram31, new_ram32⟩

/-- C9: for every allocator state, a request of 0 bytes fails (returns
`none`) and leaves the free-block list unchanged. -/
theorem C9_allocate_zero (f : FindRam) : f.allocate 0 = (none, f) :=
  allocate_zero f

/-- C2 counterexample: the claim quantifies over every request `n`, but at
`n = 0` the code returns `none` even though a block with `count ≥ 0`
exists (here a 50-byte block), instead of picking the minimal block and
returning its address as the claim demands. -/
theorem C2_counterexample :
    ((⟨[⟨0x2000, 0, 50⟩]⟩ : FindRam).allocate 0).1 = none ∧
    (∃ b ∈ (⟨[⟨0x2000, 0, 50⟩]⟩ : FindRam).blocks, 0 ≤ b.count) := by
  refine ⟨?_, ⟨⟨0x2000, 0, 50⟩, by decide, by omega⟩⟩
  rw [allocate_zero]

/-- C2 (amended to requests `n ≥ 1`): `allocate n` picks a block of
minimal count among those with `count ≥ n`, returns its original
`(address, value)`, removes it on exact fit and otherwise advances it by
`n` and shrinks it by `n` keeping the value; it fails iff no block has
`count ≥ n`; and the `{100, 50}` example allocates from the 50-byte
block, leaving the 100-byte block unchanged and a 10-byte remainder at
the old address + 40. -/
theorem C2_allocate_contract :
    (∀ (f : FindRam) (n : Nat), n ≠ 0 →
      (∃ b ∈ f.blocks, n ≤ b.count) →
      ∃ i b, f.blocks[i]? = some b ∧ n ≤ b.count ∧
        (∀ b' ∈ f.blocks, n ≤ b'.count → b.count ≤ b'.count) ∧
        (f.allocate n).1 = some (b.address, b.value) ∧
        (b.count = n → (f.allocate n).2 = ⟨f.blocks.eraseIdx i⟩) ∧
        (b.count ≠ n → (f.allocate n).2 =
          ⟨f.blocks.set i ⟨b.address + n, b.value, b.count - n⟩⟩)) ∧
    (∀ (f : FindRam) (n : Nat), (∀ b ∈ f.blocks, b.count < n) →
      f.allocate n = (none, f)) ∧
    ((⟨[⟨0x2000, 0, 100⟩, ⟨0x3000, 0, 50⟩]⟩ : FindRam).allocate 40 =
      (some (0x3000, 0), ⟨[⟨0x2000, 0, 100⟩, ⟨0x3028, 0, 10⟩]⟩)) := by
  refine ⟨?_, ?_, by decide⟩
  · intro f n hn hex
    obtain ⟨i, ho⟩ := bestFit_isSome n f.blocks hex
    obtain ⟨b, hb, hel, hmin⟩ := bestFit_spec n f.blocks i ho
    refine ⟨i, b, hb, hel, hmin, ?_, ?_, ?_⟩
    · by_cases hcn : b.count = n
      · rw [allocate_success_exact f n i b hn ho hb (by omega)]
      · rw [allocate_success_split f n i b hn ho hb (by omega)]
    · intro hcn
      rw [allocate_success_exact f n i b hn ho hb (by omega)]
    · intro hcn
      rw [allocate_success_split f n i b hn ho hb (by omega)]
  · intro f n h
    by_cases hn : n = 0
    · subst hn
      exact allocate_zero f
    · refine allocate_fail f n hn ?_
      unfold bestFit
      rw [bestFitAux_complete n f.blocks 0 h]
      rfl

/-- Witness for C2: the amended contract applied to the `{100, 50}` state
with request 40, and the failure case applied to a state that cannot hold
a 64-byte request. -/
theorem C2_allocate_contract_witness :
    (∃ i b, (⟨[⟨0x2000, 0, 100⟩, ⟨0x3000, 0, 50⟩]⟩ : FindRam).blocks[i]? = some b ∧
      40 ≤ b.count ∧
      (∀ b' ∈ (⟨[⟨0x2000, 0, 100⟩, ⟨0x3000, 0, 50⟩]⟩ : FindRam).blocks,
        40 ≤ b'.count → b.count ≤ b'.count) ∧
      ((⟨[⟨0x2000, 0, 100⟩, ⟨0x3000, 0, 50⟩]⟩ : FindRam).allocate 40).1 =
        some (b.address, b.value) ∧
      (b.count = 40 →
        ((⟨[⟨0x2000, 0, 100⟩, ⟨0x3000, 0, 50⟩]⟩ : FindRam).allocate 40).2 =
          ⟨(⟨[⟨0x2000, 0, 100⟩, ⟨0x3000, 0, 50⟩]⟩ : FindRam).blocks.eraseIdx i⟩) ∧
      (b.count ≠ 40 →
        ((⟨[⟨0x2000, 0, 100⟩, ⟨0x3000, 0, 50⟩]⟩ : FindRam).allocate 40).2 =
          ⟨(⟨[⟨0x2000, 0, 100⟩, ⟨0x3000, 0, 50⟩]⟩ : FindRam).blocks.set i
            ⟨b.address + 40, b.value, b.count - 40⟩⟩)) ∧
    ((⟨[⟨0x5000, 7, 40⟩]⟩ : FindRam).allocate 64 = (none, ⟨[⟨0x5000, 7, 40⟩]⟩)) :=
  ⟨C2_allocate_contract.1 ⟨[⟨0x2000, 0, 100⟩, ⟨0x3000, 0, 50⟩]⟩ 40 (by decide)
      ⟨⟨0x3000, 0, 50⟩, by decide, by decide⟩,
    C2_allocate_contract.2.1 ⟨[⟨0x5000, 7, 40⟩]⟩ 64 (by decide)⟩

/-- C8: every block produced by construction has `count ≥ 32` and all its
bytes in the source image equal its value; after any sequence of
allocations every remaining block still satisfies the byte-equality
invariant, and so does the window returned by each further allocation. -/
theorem C8_block_invariants (ram : Mem) :
    (∀ b ∈ (FindRam.new ram).blocks, MIN_SEQUENCE_LEN ≤ b.count ∧
      ∀ j, j < b.count → getByte ram (b.address + j) = b.value) ∧
    (∀ ns : List Nat, ∀ b ∈ (allocSeq (FindRam.new ram) ns).blocks,
      ∀ j, j < b.count → getByte ram (b.address + j) = b.value) ∧
    (∀ (ns : List Nat) (n a v : Nat),
      ((allocSeq (FindRam.new ram) ns).allocate n).1 = some (a, v) →
      ∀ j, j < n → getByte ram (a + j) = v) := by
  refine ⟨new_inv ram, ?_, ?_⟩
  · intro ns
    exact allocSeq_inv ram ns (FindRam.new ram) (fun b hb => (new_inv ram b hb).2)
  · intro ns n a v hav j hj
    have hInv := allocSeq_inv ram ns (FindRam.new ram)
      (fun b hb => (new_inv ram b hb).2)
    exact (allocate_preserves_inv ram (allocSeq (FindRam.new ram) ns) n hInv).2
      a v hav j hj

/-- Witness for C8: on the all-zero image the first allocation of 32
bytes returns the window at `$0200` with value 0, whose bytes indeed all
read back 0. -/
theorem C8_block_invariants_witness : getByte 0 (0x200 + 5) = 0 :=
  (C8_block_invariants 0).2.2 [] 32 0x200 0
    (by rw [show allocSeq (FindRam.new 0) [] = FindRam.new 0 from rfl,
          new_allzero]
        decide)
    5 (by omega)

end VSnap

namespace VSnap

/-! ## VSF parser (src/parse_vsf.rs)

The input byte sequence is embedded as a `ByteStream`: a base-256 value
together with its length in bytes.  The Rust cursor reads collapse to
index arithmetic: reading `n` bytes at position `p` is `readRange data p
n`, and a multi-byte little-endian quantity read byte-by-byte equals the
same `readRange` because the buffer encoding is little-endian base 256.
Sequential reads that can hit end-of-input in several places collapse to
a single length comparison because every such failure produces the same
"Unexpected EOF" error value. -/

/-- A byte sequence: base-256 little-endian `data` of `len` bytes. -/
structure ByteStream where
  data : Nat
  len  : Nat
deriving Repr, DecidableEq

/-- Little-endian base-256 encoding of a byte list. -/
def bytesToNat : List Nat → Nat
  | [] => 0
  | b :: rest => b % 256 + 256 * bytesToNat rest

/-- Compression formats recognized by `sniff_compression_prefix`. -/
inductive Comp where
  | gzip
  | bzip2
  | zip
deriving Repr, DecidableEq

/-- The error outcomes of `parse_import_with`, one constructor per
distinct Rust error message, carrying the data interpolated into the
message.  `vicPanic` is the one outcome that is not an error return in
the Rust source: `parse_vic` slices `payload[761..1785]` guarded only by
`payload.len() >= 48`, so a payload of length 48..=1784 makes the Rust
code panic; the model returns this distinguished value instead. -/
inductive ParseErr where
  | eof
  | notVsf (hint : Option Comp)
  | unsupportedVersion (vmaj vmin : Nat)
  | unsupportedMachine (mach : List Nat)
  | moduleSizeCorrupt
  | moduleBeyondEOF (name : List Nat)
  | maincpuMissing
  | c64memMissing
  | vicMissing
  | cia1Missing
  | cia2Missing
  | sidMissing
  | c64memTooShort
  | vicTooSmall
  | vicPanic
  | sidRegsRange
deriving Repr, DecidableEq

/-- ASCII bytes of `"VICE Snapshot File"`. -/
def VSF_MAGIC : List Nat :=
  [86, 73, 67, 69, 32, 83, 110, 97, 112, 115, 104, 111, 116, 32, 70, 105, 108, 101]

def NAME_MAINCPU : List Nat := [77, 65, 73, 78, 67, 80, 85]
def NAME_C64MEM : List Nat := [67, 54, 52, 77, 69, 77]
def NAME_VICII : List Nat := [86, 73, 67, 45, 73, 73]
def NAME_CIA1 : List Nat := [67, 73, 65, 49]
def NAME_CIA2 : List Nat := [67, 73, 65, 50]
def NAME_SID : List Nat := [83, 73, 68]
def NAME_C64SC : List Nat := [67, 54, 52, 83, 67]

/-- Mirrors `vsf_magic_ok`: the 18-byte magic prefix plus a terminator in
`{space, NUL, SUB}`. -/
def vsfMagicOk (w : Nat) : Prop :=
  readRange w 0 18 = bytesToNat VSF_MAGIC ∧
    (getByte w 18 = 32 ∨ getByte w 18 = 0 ∨ getByte w 18 = 26)

instance (w : Nat) : Decidable (vsfMagicOk w) := by
  unfold vsfMagicOk
  infer_instance

/-- Mirrors `sniff_compression_prefix`. -/
def sniff (w : Nat) : Option Comp :=
  if getByte w 0 = 0x1F ∧ getByte w 1 = 0x8B then some .gzip
  else if readRange w 0 3 = bytesToNat [66, 90, 104] then some .bzip2
  else if readRange w 0 4 = bytesToNat [0x50, 0x4B, 0x03, 0x04] then some .zip
  else none

/-- Mirrors `trim_nul`: the bytes of a fixed-width field up to the first
NUL byte. -/
def trimNulGo (w : Nat) : Nat → Nat → List Nat
  | _, 0 => []
  | i, fuel + 1 =>
    if getByte w i = 0 then [] else getByte w i :: trimNulGo w (i + 1) fuel

def trimNul (w len : Nat) : List Nat := trimNulGo w 0 len

/-- Mirrors `Cpu6510`. -/
structure Cpu6510 where
  a : Nat
  x : Nat
  y : Nat
  sp : Nat
  pc : Nat
  p : Nat
deriving Repr, DecidableEq

/-- Mirrors `C64Mem`; `ram` is the 64 KiB image. -/
structure C64Mem where
  cpu_port_data : Nat
  cpu_port_dir : Nat
  ram : Mem
deriving Repr, DecidableEq

/-- Mirrors `VicII`; `registers` packs 47 bytes, `color_ram` 1024. -/
structure VicII where
  registers : Nat
  color_ram : Nat
deriving Repr, DecidableEq

/-- Mirrors `Cia6526`. -/
structure Cia6526 where
  ddra : Nat
  ddrb : Nat
  ora : Nat
  orb : Nat
  tac : Nat
  tbc : Nat
  tal : Nat
  tbl : Nat
  tod_10ths : Nat
  tod_sec : Nat
  tod_min : Nat
  tod_hr : Nat
  cra : Nat
  crb : Nat
  ier : Nat
deriving Repr, DecidableEq

/-- Mirrors `Sid6581`; 25 register bytes packed. -/
structure Sid6581 where
  regs_25 : Nat
deriving Repr, DecidableEq

/-- Mirrors `C64Snapshot`. -/
structure C64Snapshot where
  cpu : Cpu6510
  mem : C64Mem
  vic : VicII
  cia1 : Cia6526
  cia2 : Cia6526
  sid : Sid6581
deriving Repr, DecidableEq

/-- Mirrors `parse_cpu`: clock and padding skipped, then A, X, Y, SP,
PC (u16 LE), P; any read past the payload end is the EOF error. -/
def parseCpu (p : ByteStream) : Except ParseErr Cpu6510 :=
  if 15 ≤ p.len then
    .ok ⟨getByte p.data 8, getByte p.data 9, getByte p.data 10,
      getByte p.data 11, readRange p.data 12 2, getByte p.data 14⟩
  else .error .eof

/-- Mirrors `parse_memory`. -/
def parseMemory (p : ByteStream) : Except ParseErr C64Mem :=
  if p.len < 4 + 65536 then .error .c64memTooShort
  else .ok ⟨getByte p.data 0, getByte p.data 1, readRange p.data 4 65536⟩

/-- Mirrors `parse_vic`; see `ParseErr.vicPanic` for the 48..=1784 case. -/
def parseVic (p : ByteStream) : Except ParseErr VicII :=
  if p.len < 1 + 47 then .error .vicTooSmall
  else if p.len < 761 + 1024 then .error .vicPanic
  else .ok ⟨readRange p.data 1 47, readRange p.data 761 1024⟩

/-- Mirrors `parse_cia`, including the `orb == 0 → 0xFF` key-held fix. -/
def parseCia (p : ByteStream) : Except ParseErr Cia6526 :=
  if 20 ≤ p.len then
    .ok { ddra := getByte p.data 2
          ddrb := getByte p.data 3
          ora := getByte p.data 0
          orb := if getByte p.data 1 = 0 then 0xFF else getByte p.data 1
          tac := readRange p.data 4 2
          tbc := readRange p.data 6 2
          tal := readRange p.data 16 2
          tbl := readRange p.data 18 2
          tod_10ths := getByte p.data 8
          tod_sec := getByte p.data 9
          tod_min := getByte p.data 10
          tod_hr := getByte p.data 11
          cra := getByte p.data 14
          crb := getByte p.data 15
          ier := getByte p.data 13 }
  else .error .eof

/-- Mirrors `parse_sid`: 25 register bytes at payload offset 4. -/
def parseSid (p : ByteStream) : Except ParseErr Sid6581 :=
  if 4 + 25 ≤ p.len then .ok ⟨readRange p.data 4 25⟩
  else .error .sidRegsRange

end VSnap

namespace VSnap

/-- The module accumulator of the parse loop (the six `Option` locals of
`parse_import_with`). -/
structure ModAcc where
  cpu : Option Cpu6510
  mem : Option C64Mem
  vic : Option VicII
  cia1 : Option Cia6526
  cia2 : Option Cia6526
  sid : Option Sid6581
deriving Repr, DecidableEq

def emptyAcc : ModAcc := ⟨none, none, none, none, none, none⟩

/-- The trimmed name of the module whose header starts at `pos`. -/
def modName (s : ByteStream) (pos : Nat) : List Nat :=
  trimNul (readRange s.data pos 16) 16

/-- The declared 32-bit total size of the module at `pos` (little-endian,
read after the 16-byte name and two version bytes). -/
def modSize (s : ByteStream) (pos : Nat) : Nat := readRange s.data (pos + 18) 4

/-- The payload of the module at `pos`: `size - 22` bytes after the
22-byte module header. -/
def modPayload (s : ByteStream) (pos : Nat) : ByteStream :=
  ⟨readRange s.data (pos + 22) (modSize s pos - 22), modSize s pos - 22⟩

/-- The position just past the module at `pos`. -/
def modNext (s : ByteStream) (pos : Nat) : Nat :=
  pos + 22 + (modSize s pos - 22)

/-- Result of one iteration of the module loop: stop with a result, or
continue at the next position with an updated accumulator. -/
inductive StepRes where
  | halt (r : Except ParseErr ModAcc)
  | cont (next : Nat) (acc : ModAcc)

/-- One iteration of the module loop of `parse_import_with`: read the
16-byte name (a failed read breaks the loop), the version bytes and the
u32 size (a failed read is the EOF error), reject `size < 22` (the
`checked_sub` in the source) and payloads extending past the end of the
input, then dispatch on the module name; unknown modules are skipped. -/
def moduleStep (s : ByteStream) (pos : Nat) (acc : ModAcc) : StepRes :=
  if pos < s.len then
    if pos + 16 ≤ s.len then
      if pos + 22 ≤ s.len then
        if modSize s pos < 22 then .halt (.error .moduleSizeCorrupt)
        else if s.len < modNext s pos then
          .halt (.error (.moduleBeyondEOF (modName s pos)))
        else if modName s pos = NAME_MAINCPU then
          match parseCpu (modPayload s pos) with
          | .error e => .halt (.error e)
          | .ok cpu => .cont (modNext s pos) { acc with cpu := some cpu }
        else if modName s pos = NAME_C64MEM then
          match parseMemory (modPayload s pos) with
          | .error e => .halt (.error e)
          | .ok mem => .cont (modNext s pos) { acc with mem := some mem }
        else if modName s pos = NAME_VICII then
          match parseVic (modPayload s pos) with
          | .error e => .halt (.error e)
          | .ok vic => .cont (modNext s pos) { acc with vic := some vic }
        else if modName s pos = NAME_CIA1 then
          match parseCia (modPayload s pos) with
          | .error e => .halt (.error e)
          | .ok cia => .cont (modNext s pos) { acc with cia1 := some cia }
        else if modName s pos = NAME_CIA2 then
          match parseCia (modPayload s pos) with
          | .error e => .halt (.error e)
          | .ok cia => .cont (modNext s pos) { acc with cia2 := some cia }
        else if modName s pos = NAME_SID then
          match parseSid (modPayload s pos) with
          | .error e => .halt (.error e)
          | .ok sid => .cont (modNext s pos) { acc with sid := some sid }
        else .cont (modNext s pos) acc
      else .halt (.error .eof)
    else .halt (.ok acc)
  else .halt (.ok acc)

/-- The module loop of `parse_import_with`. -/
def parseModules (s : ByteStream) : Nat → Nat → ModAcc → Except ParseErr ModAcc
  | 0, _, acc => .ok acc
  | fuel + 1, pos, acc =>
    match moduleStep s pos acc with
    | .halt r => r
    | .cont next acc2 => parseModules s fuel next acc2

/-- Number of zero bytes among the first `k` bytes of `w` (the `count_0`
filter of the color-memory quality gate). -/
def countZeros (w : Nat) : Nat → Nat
  | 0 => 0
  | k + 1 => countZeros w k + (if getByte w k = 0 then 1 else 0)

/-- Whether every one of the first `k` bytes of `w` has a zero high
nibble (the `all_low_nibble` check). -/
def allLowNibble (w : Nat) : Nat → Bool
  | 0 => true
  | k + 1 => allLowNibble w k && (Nat.land (getByte w k) 0xF0 = 0)

/-- The tail of `parse_import_with`: require the six modules, then
replace the video chip color memory with RAM `$D800..=$DBFF` when the
quality gate passes. -/
def finalize (acc : ModAcc) : Except ParseErr C64Snapshot :=
  match acc.cpu with
  | none => .error .maincpuMissing
  | some cpu =>
    match acc.mem with
    | none => .error .c64memMissing
    | some mem =>
      match acc.vic with
      | none => .error .vicMissing
      | some vic =>
        match acc.cia1 with
        | none => .error .cia1Missing
        | some cia1 =>
          match acc.cia2 with
          | none => .error .cia2Missing
          | some cia2 =>
            match acc.sid with
            | none => .error .sidMissing
            | some sid =>
              let color_slice := readRange mem.ram 0xD800 1024
              let vic' :=
                if allLowNibble color_slice 1024 = true ∧
                    countZeros color_slice 1024 < 900 then
                  { vic with color_ram := color_slice }
                else vic
              .ok ⟨cpu, mem, vic', cia1, cia2, sid⟩

/-- Mirrors `parse_import_with` (with the default parser configuration,
which is what `parse_import` passes). -/
def parseImport (s : ByteStream) : Except ParseErr C64Snapshot :=
  if s.len < 19 then .error .eof
  else if ¬ vsfMagicOk (readRange s.data 0 19) then
    .error (.notVsf (sniff (readRange s.data 0 19)))
  else if s.len < 21 then .error .eof
  else if getByte s.data 19 ≠ 2 ∨ getByte s.data 20 ≠ 0 then
    .error (.unsupportedVersion (getByte s.data 19) (getByte s.data 20))
  else if s.len < 37 then .error .eof
  else if trimNul (readRange s.data 21 16) 16 ≠ NAME_C64SC then
    .error (.unsupportedMachine (trimNul (readRange s.data 21 16) 16))
  else if s.len < 58 then .error .eof
  else
    match parseModules s (s.len + 1) 58 emptyAcc with
    | .error e => .error e
    | .ok acc => finalize acc

end VSnap

namespace VSnap

/-! ### Parser lemmas -/

/-- A stream whose fixed header passes every check of the parser. -/
def headerValid (s : ByteStream) : Prop :=
  58 ≤ s.len ∧ vsfMagicOk (readRange s.data 0 19) ∧
    getByte s.data 19 = 2 ∧ getByte s.data 20 = 0 ∧
    trimNul (readRange s.data 21 16) 16 = NAME_C64SC

instance (s : ByteStream) : Decidable (headerValid s) := by
  unfold headerValid
  infer_instance

/-- With a valid fixed header, parsing is the module loop followed by the
final assembly. -/
theorem parseImport_eq_loop (s : ByteStream) (h : headerValid s) :
    parseImport s = match parseModules s (s.len + 1) 58 emptyAcc with
      | .error e => .error e
      | .ok acc => finalize acc := by
  obtain ⟨h1, h2, h3, h4, h5⟩ := h
  unfold parseImport
  rw [if_neg (by omega), if_neg (by simp only [not_not]; exact h2),
    if_neg (by omega), if_neg (by simp [h3, h4]), if_neg (by omega),
    if_neg (by simp [h5]), if_neg (by omega)]

theorem parseModules_sizeCorrupt (s : ByteStream) (fuel pos : Nat) (acc : ModAcc)
    (h1 : pos < s.len) (h2 : pos + 22 ≤ s.len)
    (h3 : modSize s pos < 22) :
    parseModules s (fuel + 1) pos acc = .error .moduleSizeCorrupt := by
  have hs : moduleStep s pos acc = .halt (.error .moduleSizeCorrupt) := by
    unfold moduleStep
    rw [if_pos h1, if_pos (by omega), if_pos h2, if_pos h3]
  rw [parseModules, hs]

theorem parseModules_beyondEOF (s : ByteStream) (fuel pos : Nat) (acc : ModAcc)
    (h1 : pos < s.len) (h2 : pos + 22 ≤ s.len)
    (h3 : 22 ≤ modSize s pos)
    (h4 : s.len < modNext s pos) :
    parseModules s (fuel + 1) pos acc =
      .error (.moduleBeyondEOF (modName s pos)) := by
  have hs : moduleStep s pos acc = .halt (.error (.moduleBeyondEOF (modName s pos))) := by
    unfold moduleStep
    rw [if_pos h1, if_pos (by omega), if_pos h2, if_neg (by omega), if_pos h4]
  rw [parseModules, hs]

end VSnap

namespace VSnap

theorem parseImport_ok_loop (s : ByteStream) (hs : headerValid s) (acc : ModAcc)
    (hloop : parseModules s (s.len + 1) 58 emptyAcc = .ok acc) :
    parseImport s = finalize acc := by
  rw [parseImport_eq_loop s hs, hloop]

/-- C3: the parser rejection matrix.  Each category of malformed input is
rejected with its category-specific error value (which carries the
offending version bytes, machine string, or module name), and the parser
yields no snapshot in any of these cases stops.  The conjuncts cover: bad
magic (with the compression sniffing that feeds the hint), unsupported
format version, unsupported machine string, a module whose declared size
extends beyond the end of the input (as a statement about the module
loop, plus the propagation of any loop error through the parser), and
each missing required module in the order the code checks them. -/
theorem C3_rejection_matrix :
    (∀ s : ByteStream, 19 ≤ s.len → ¬ vsfMagicOk (readRange s.data 0 19) →
      parseImport s = .error (.notVsf (sniff (readRange s.data 0 19)))) ∧
    (∀ w : Nat, getByte w 0 = 0x1F → getByte w 1 = 0x8B →
      sniff w = some .gzip) ∧
    (∀ w : Nat, ¬ (getByte w 0 = 0x1F ∧ getByte w 1 = 0x8B) →
      readRange w 0 3 = bytesToNat [66, 90, 104] → sniff w = some .bzip2) ∧
    (∀ w : Nat, ¬ (getByte w 0 = 0x1F ∧ getByte w 1 = 0x8B) →
      ¬ readRange w 0 3 = bytesToNat [66, 90, 104] →
      readRange w 0 4 = bytesToNat [0x50, 0x4B, 0x03, 0x04] →
      sniff w = some .zip) ∧
    (∀ s : ByteStream, 21 ≤ s.len → vsfMagicOk (readRange s.data 0 19) →
      (getByte s.data 19 ≠ 2 ∨ getByte s.data 20 ≠ 0) →
      parseImport s =
        .error (.unsupportedVersion (getByte s.data 19) (getByte s.data 20))) ∧
    (∀ s : ByteStream, 37 ≤ s.len → vsfMagicOk (readRange s.data 0 19) →
      getByte s.data 19 = 2 → getByte s.data 20 = 0 →
      trimNul (readRange s.data 21 16) 16 ≠ NAME_C64SC →
      parseImport s =
        .error (.unsupportedMachine (trimNul (readRange s.data 21 16) 16))) ∧
    (∀ (s : ByteStream) (fuel pos : Nat) (acc : ModAcc),
      pos < s.len → pos + 22 ≤ s.len → 22 ≤ modSize s pos →
      s.len < modNext s pos →
      parseModules s (fuel + 1) pos acc =
        .error (.moduleBeyondEOF (modName s pos))) ∧
    (∀ s : ByteStream, headerValid s → ∀ e : ParseErr,
      parseModules s (s.len + 1) 58 emptyAcc = .error e →
      parseImport s = .error e) ∧
    (∀ s : ByteStream, headerValid s → ∀ acc : ModAcc,
      parseModules s (s.len + 1) 58 emptyAcc = .ok acc →
      (acc.cpu = none → parseImport s = .error .maincpuMissing) ∧
      (acc.cpu.isSome → acc.mem = none →
        parseImport s = .error .c64memMissing) ∧
      (acc.cpu.isSome → acc.mem.isSome → acc.vic = none →
        parseImport s = .error .vicMissing) ∧
      (acc.cpu.isSome → acc.mem.isSome → acc.vic.isSome → acc.cia1 = none →
        parseImport s = .error .cia1Missing) ∧
      (acc.cpu.isSome → acc.mem.isSome → acc.vic.isSome → acc.cia1.isSome →
        acc.cia2 = none → parseImport s = .error .cia2Missing) ∧
      (acc.cpu.isSome → acc.mem.isSome → acc.vic.isSome → acc.cia1.isSome →
        acc.cia2.isSome → acc.sid = none →
        parseImport s = .error .sidMissing)) := by
  refine ⟨?_, ?_, ?_, ?_, ?_, ?_, ?_, ?_, ?_⟩
  · intro s h1 h2
    unfold parseImport
    rw [if_neg (by omega), if_pos h2]
  · intro w h0 h1
    unfold sniff
    rw [if_pos ⟨h0, h1⟩]
  · intro w h0 h1
    unfold sniff
    rw [if_neg h0, if_pos h1]
  · intro w h0 h1 h2
    unfold sniff
    rw [if_neg h0, if_neg h1, if_pos h2]
  · intro s h1 h2 h3
    unfold parseImport
    rw [if_neg (by omega), if_neg (by simp only [not_not]; exact h2),
      if_neg (by omega), if_pos h3]
  · intro s h1 h2 h3 h4 h5
    unfold parseImport
    rw [if_neg (by omega), if_neg (by simp only [not_not]; exact h2),
      if_neg (by omega), if_neg (by simp [h3, h4]), if_neg (by omega),
      if_pos h5]
  · intro s fuel pos acc h1 h2 h3 h4
    exact parseModules_beyondEOF s fuel pos acc h1 h2 h3 h4
  · intro s hs e hloop
    rw [parseImport_eq_loop s hs, hloop]
  · intro s hs acc hloop
    have hglue := parseImport_ok_loop s hs acc hloop
    refine ⟨?_, ?_, ?_, ?_, ?_, ?_⟩
    · intro hcpu
      rw [hglue]
      unfold finalize
      rw [hcpu]
    · intro hcpu hmem
      obtain ⟨cpu, hcpu⟩ := Option.isSome_iff_exists.1 hcpu
      rw [hglue]
      unfold finalize
      rw [hcpu, hmem]
    · intro hcpu hmem hvic
      obtain ⟨cpu, hcpu⟩ := Option.isSome_iff_exists.1 hcpu
      obtain ⟨mem, hmem⟩ := Option.isSome_iff_exists.1 hmem
      rw [hglue]
      unfold finalize
      rw [hcpu, hmem, hvic]
    · intro hcpu hmem hvic hcia1
      obtain ⟨cpu, hcpu⟩ := Option.isSome_iff_exists.1 hcpu
      obtain ⟨mem, hmem⟩ := Option.isSome_iff_exists.1 hmem
      obtain ⟨vic, hvic⟩ := Option.isSome_iff_exists.1 hvic
      rw [hglue]
      unfold finalize
      rw [hcpu, hmem, hvic, hcia1]
    · intro hcpu hmem hvic hcia1 hcia2
      obtain ⟨cpu, hcpu⟩ := Option.isSome_iff_exists.1 hcpu
      obtain ⟨mem, hmem⟩ := Option.isSome_iff_exists.1 hmem
      obtain ⟨vic, hvic⟩ := Option.isSome_iff_exists.1 hvic
      obtain ⟨cia1, hcia1⟩ := Option.isSome_iff_exists.1 hcia1
      rw [hglue]
      unfold finalize
      rw [hcpu, hmem, hvic, hcia1, hcia2]
    · intro hcpu hmem hvic hcia1 hcia2 hsid
      obtain ⟨cpu, hcpu⟩ := Option.isSome_iff_exists.1 hcpu
      obtain ⟨mem, hmem⟩ := Option.isSome_iff_exists.1 hmem
      obtain ⟨vic, hvic⟩ := Option.isSome_iff_exists.1 hvic
      obtain ⟨cia1, hcia1⟩ := Option.isSome_iff_exists.1 hcia1
      obtain ⟨cia2, hcia2⟩ := Option.isSome_iff_exists.1 hcia2
      rw [hglue]
      unfold finalize
      rw [hcpu, hmem, hvic, hcia1, hcia2, hsid]

end VSnap

namespace VSnap

/-! ### Concrete parser fixtures -/

instance {e a : Type} [DecidableEq e] [DecidableEq a] :
    DecidableEq (Except e a) := fun x y =>
  match x, y with
  | .ok u, .ok v =>
    if h : u = v then isTrue (by rw [h])
    else isFalse (by intro hh; cases hh; exact h rfl)
  | .ok _, .error _ => isFalse (by intro hh; cases hh)
  | .error _, .ok _ => isFalse (by intro hh; cases hh)
  | .error u, .error v =>
    if h : u = v then isTrue (by rw [h])
    else isFalse (by intro hh; cases hh; exact h rfl)

/-- Four little-endian bytes of a 32-bit value. -/
def listLE4 (x : Nat) : List Nat :=
  [x % 256, x / 256 % 256, x / 65536 % 256, x / 16777216 % 256]

/-- A valid 58-byte fixed header (magic, version 2.0, machine C64SC,
zeroed producer-version block) with no modules. -/
def hdr58 : ByteStream :=
  ⟨bytesToNat (VSF_MAGIC ++ [26, 2, 0] ++ NAME_C64SC ++
    List.replicate 11 0 ++ List.replicate 21 0), 58⟩

/-- Append a module with the given name, a zero-filled payload of
`psize` bytes and a consistent declared size. -/
def addMod (s : ByteStream) (name : List Nat) (psize : Nat) : ByteStream :=
  ⟨s.data + bytesToNat (name ++ List.replicate (16 - name.length) 0 ++
      [0, 0] ++ listLE4 (psize + 22)) * 256 ^ s.len,
    s.len + 22 + psize⟩

def sCpu : ByteStream := addMod hdr58 NAME_MAINCPU 15
def sMem : ByteStream := addMod sCpu NAME_C64MEM 65540
def sVic : ByteStream := addMod sMem NAME_VICII 1785
def sCia1 : ByteStream := addMod sVic NAME_CIA1 20
def sCia2 : ByteStream := addMod sCia1 NAME_CIA2 20

/-- A valid header followed by a SID module that declares 978 payload
bytes but ends after its 22-byte header. -/
def sEof : ByteStream :=
  ⟨hdr58.data + bytesToNat (NAME_SID ++ List.replicate 13 0 ++
      [0, 0] ++ listLE4 1000) * 256 ^ 58, 58 + 22⟩

end VSnap

namespace VSnap

/-- Witness for C3: every rejection category exercised on a concrete
malformed input. -/
theorem C3_rejection_matrix_witness :
    parseImport ⟨bytesToNat [0x1F, 0x8B], 19⟩ =
      .error (.notVsf (some .gzip)) ∧
    sniff (bytesToNat [0x1F, 0x8B]) = some .gzip ∧
    sniff (bytesToNat [66, 90, 104]) = some .bzip2 ∧
    sniff (bytesToNat [0x50, 0x4B, 0x03, 0x04]) = some .zip ∧
    parseImport ⟨bytesToNat (VSF_MAGIC ++ [26, 1, 0]), 21⟩ =
      .error (.unsupportedVersion 1 0) ∧
    parseImport ⟨bytesToNat (VSF_MAGIC ++ [26, 2, 0] ++ [67, 54, 52] ++
        List.replicate 13 0), 37⟩ =
      .error (.unsupportedMachine [67, 54, 52]) ∧
    parseModules ⟨100 * 256 ^ 18, 22⟩ 1 0 emptyAcc =
      .error (.moduleBeyondEOF []) ∧
    parseImport sEof = .error (.moduleBeyondEOF NAME_SID) ∧
    parseImport hdr58 = .error .maincpuMissing ∧
    parseImport sCpu = .error .c64memMissing ∧
    parseImport sMem = .error .vicMissing ∧
    parseImport sVic = .error .cia1Missing ∧
    parseImport sCia1 = .error .cia2Missing ∧
    parseImport sCia2 = .error .sidMissing := by
  obtain ⟨h1, h2, h3, h4, h5, h6, h7, h8, h9⟩ := C3_rejection_matrix
  refine ⟨?_, ?_, ?_, ?_, ?_, ?_, ?_, ?_, ?_, ?_, ?_, ?_, ?_, ?_⟩
  · exact h1 _ (by decide) (by decide)
  · exact h2 _ (by decide) (by decide)
  · exact h3 _ (by decide) (by decide)
  · exact h4 _ (by decide) (by decide) (by decide)
  · exact h5 _ (by decide) (by decide) (by decide)
  · exact h6 _ (by decide) (by decide) (by decide) (by decide) (by decide)
  · exact h7 _ 0 0 emptyAcc (by decide) (by decide) (by decide) (by decide)
  · exact h8 sEof (by decide) _ (by decide)
  · exact (h9 hdr58 (by decide) emptyAcc (by decide)).1 rfl
  · exact (h9 sCpu (by decide)
      ⟨some ⟨0, 0, 0, 0, 0, 0⟩, none, none, none, none, none⟩ (by decide)).2.1
      (by decide) rfl
  · exact (h9 sMem (by decide)
      ⟨some ⟨0, 0, 0, 0, 0, 0⟩, some ⟨0, 0, 0⟩, none, none, none, none⟩
      (by decide)).2.2.1 (by decide) (by decide) rfl
  · exact (h9 sVic (by decide)
      ⟨some ⟨0, 0, 0, 0, 0, 0⟩, some ⟨0, 0, 0⟩, some ⟨0, 0⟩, none, none, none⟩
      (by decide)).2.2.2.1 (by decide) (by decide) (by decide) rfl
  · exact (h9 sCia1 (by decide)
      ⟨some ⟨0, 0, 0, 0, 0, 0⟩, some ⟨0, 0, 0⟩, some ⟨0, 0⟩,
        some ⟨0, 0, 0, 255, 0, 0, 0, 0, 0, 0, 0, 0, 0, 0, 0⟩, none, none⟩
      (by decide)).2.2.2.2.1 (by decide) (by decide) (by decide) (by decide) rfl
  · exact (h9 sCia2 (by decide)
      ⟨some ⟨0, 0, 0, 0, 0, 0⟩, some ⟨0, 0, 0⟩, some ⟨0, 0⟩,
        some ⟨0, 0, 0, 255, 0, 0, 0, 0, 0, 0, 0, 0, 0, 0, 0⟩,
        some ⟨0, 0, 0, 255, 0, 0, 0, 0, 0, 0, 0, 0, 0, 0, 0⟩, none⟩
      (by decide)).2.2.2.2.2 (by decide) (by decide) (by decide) (by decide)
      (by decide) rfl

end VSnap

namespace VSnap

/-- A valid header followed by a VIC-II module whose payload is 48 bytes:
long enough to pass the register-count guard, too short for the color
slice `payload[761..1785]`, so the Rust code panics (see `parseVic`). -/
def sPanic : ByteStream := addMod hdr58 NAME_VICII 48

/-- C10 counterexample: parsing is not total over arbitrary input bytes.
On `sPanic` the parser reaches the out-of-range color-memory slice in
`parse_vic`, which panics in Rust (modeled as the distinguished
`vicPanic` outcome rather than an error return). -/
theorem C10_counterexample : parseImport sPanic = .error .vicPanic := by
  decide

/-- C10 (amended): a module with declared size below the 22-byte header
yields the module-size-corrupt error with no underflow; every parse
yields either a snapshot or an error value, except that a VIC-II module
whose payload length lies in `48..=1784` reaches the Rust panic in
`parse_vic`, modeled as the `vicPanic` outcome. -/
theorem C10_size_corrupt_total :
    (∀ (s : ByteStream) (fuel pos : Nat) (acc : ModAcc),
      pos < s.len → pos + 22 ≤ s.len → modSize s pos < 22 →
      parseModules s (fuel + 1) pos acc = .error .moduleSizeCorrupt) ∧
    (∀ s : ByteStream,
      (∃ snap, parseImport s = .ok snap) ∨ (∃ e, parseImport s = .error e)) ∧
    (∀ (s : ByteStream) (fuel pos : Nat) (acc : ModAcc),
      pos < s.len → pos + 22 ≤ s.len → 22 ≤ modSize s pos →
      modNext s pos ≤ s.len → modName s pos = NAME_VICII →
      48 ≤ modSize s pos - 22 → modSize s pos - 22 < 1785 →
      parseModules s (fuel + 1) pos acc = .error .vicPanic) := by
  refine ⟨?_, ?_, ?_⟩
  · intro s fuel pos acc h1 h2 h3
    exact parseModules_sizeCorrupt s fuel pos acc h1 h2 h3
  · intro s
    rcases h : parseImport s with e | snap
    · exact Or.inr ⟨e, rfl⟩
    · exact Or.inl ⟨snap, rfl⟩
  · intro s fuel pos acc h1 h2 h3 h4 hname h5 h6
    have hv : parseVic (modPayload s pos) = .error .vicPanic := by
      unfold parseVic modPayload
      dsimp only
      rw [if_neg (by omega), if_pos (by omega)]
    have hs : moduleStep s pos acc = .halt (.error .vicPanic) := by
      unfold moduleStep
      rw [if_pos h1, if_pos (by omega), if_pos h2, if_neg (by omega),
        if_neg (by omega), hname,
        if_neg (by decide : ¬ (NAME_VICII = NAME_MAINCPU)),
        if_neg (by decide : ¬ (NAME_VICII = NAME_C64MEM)),
        if_pos rfl]
      rw [hv]
    rw [parseModules, hs]

/-- Witness for C10: the size-corrupt case on an all-zero 22-byte module
header, totality on the empty input, and the panic characterization on
the concrete `sPanic` stream. -/
theorem C10_size_corrupt_total_witness :
    parseModules ⟨0, 22⟩ 1 0 emptyAcc = .error .moduleSizeCorrupt ∧
    ((∃ snap, parseImport ⟨0, 0⟩ = .ok snap) ∨
      (∃ e, parseImport ⟨0, 0⟩ = .error e)) ∧
    parseModules sPanic 1 58 emptyAcc = .error .vicPanic :=
  ⟨C10_size_corrupt_total.1 ⟨0, 22⟩ 0 0 emptyAcc (by decide) (by decide)
      (by decide),
    C10_size_corrupt_total.2.1 ⟨0, 0⟩,
    C10_size_corrupt_total.2.2 sPanic 0 58 emptyAcc (by decide) (by decide)
      (by decide) (by decide) (by decide) (by decide) (by decide)⟩

end VSnap

namespace VSnap

/-- C4: for every successfully parsed snapshot, the video chip color
memory is the RAM slice `$D800..=$DBFF` exactly when every byte of that
slice has a zero high nibble and fewer than 900 of its 1024 bytes are
zero; otherwise the color memory parsed from the VIC module is kept. -/
theorem C4_color_override :
    ∀ (s : ByteStream) (acc : ModAcc) (cpu : Cpu6510) (mem : C64Mem)
      (vic : VicII) (cia1 cia2 : Cia6526) (sid : Sid6581),
      headerValid s →
      parseModules s (s.len + 1) 58 emptyAcc = .ok acc →
      acc.cpu = some cpu → acc.mem = some mem → acc.vic = some vic →
      acc.cia1 = some cia1 → acc.cia2 = some cia2 → acc.sid = some sid →
      parseImport s = .ok ⟨cpu, mem,
        (if allLowNibble (readRange mem.ram 0xD800 1024) 1024 = true ∧
            countZeros (readRange mem.ram 0xD800 1024) 1024 < 900 then
          ⟨vic.registers, readRange mem.ram 0xD800 1024⟩
        else vic), cia1, cia2, sid⟩ := by
  intro s acc cpu mem vic cia1 cia2 sid hs hloop hcpu hmem hvic hcia1 hcia2 hsid
  rw [parseImport_ok_loop s hs acc hloop]
  unfold finalize
  rw [hcpu, hmem, hvic, hcia1, hcia2, hsid]

theorem countZeros_zero : ∀ k, countZeros 0 k = k := by
  intro k
  induction k with
  | zero => rfl
  | succ n ih =>
    rw [countZeros, ih, getByte_zero, if_pos rfl]

theorem allLowNibble_zero : ∀ k, allLowNibble 0 k = true := by
  intro k
  induction k with
  | zero => rfl
  | succ n ih =>
    rw [allLowNibble, ih, getByte_zero]
    rfl

/-- The SID module completing the six required modules over zero-filled
payloads. -/
def sFull : ByteStream := addMod sCia2 NAME_SID 29

/-- Witness for C4: the full six-module zero-payload stream parses, and
because its color slice is entirely zero the quality gate fails (1024
zero bytes is not fewer than 900), so the VIC-module color memory is
kept. -/
theorem C4_color_override_witness :
    parseImport sFull = .ok ⟨⟨0, 0, 0, 0, 0, 0⟩, ⟨0, 0, 0⟩, ⟨0, 0⟩,
      ⟨0, 0, 0, 255, 0, 0, 0, 0, 0, 0, 0, 0, 0, 0, 0⟩,
      ⟨0, 0, 0, 255, 0, 0, 0, 0, 0, 0, 0, 0, 0, 0, 0⟩, ⟨0⟩⟩ := by
  have h := C4_color_override sFull
    ⟨some ⟨0, 0, 0, 0, 0, 0⟩, some ⟨0, 0, 0⟩, some ⟨0, 0⟩,
      some ⟨0, 0, 0, 255, 0, 0, 0, 0, 0, 0, 0, 0, 0, 0, 0⟩,
      some ⟨0, 0, 0, 255, 0, 0, 0, 0, 0, 0, 0, 0, 0, 0, 0⟩, some ⟨0⟩⟩
    ⟨0, 0, 0, 0, 0, 0⟩ ⟨0, 0, 0⟩ ⟨0, 0⟩
    ⟨0, 0, 0, 255, 0, 0, 0, 0, 0, 0, 0, 0, 0, 0, 0⟩
    ⟨0, 0, 0, 255, 0, 0, 0, 0, 0, 0, 0, 0, 0, 0, 0⟩ ⟨0⟩
    (by decide) (by decide) rfl rfl rfl rfl rfl rfl
  rw [h]
  have hslice : readRange (0 : Nat) 0xD800 1024 = 0 := by
    unfold readRange
    simp
  rw [show (⟨0, 0, 0⟩ : C64Mem).ram = 0 from rfl, hslice]
  rw [if_neg (by rw [countZeros_zero]; omega)]

end VSnap

namespace VSnap

/-! ## CRT cartridge builder (src/crt_builder.rs)

Emitted files are `ByteStream` values; `bsAppend` concatenates them
(normalizing each part to its declared length, as the Rust `Vec<u8>`
concatenation trivially does). -/

/-- Concatenation of byte sequences. -/
def bsAppend (a b : ByteStream) : ByteStream :=
  ⟨a.data % 256 ^ a.len + b.data % 256 ^ b.len * 256 ^ a.len, a.len + b.len⟩

theorem getByte_bsAppend (a b : ByteStream) (i : Nat) :
    getByte (bsAppend a b).data i =
      if i < a.len then getByte a.data i
      else if i < a.len + b.len then getByte b.data (i - a.len)
      else 0 := by
  unfold bsAppend
  by_cases h1 : i < a.len
  · rw [if_pos h1, getByte_add_mul_high _ _ _ _ h1, getByte_mod_low _ _ _ h1]
  · rw [if_neg h1]
    obtain ⟨j, rfl⟩ : ∃ j, i = a.len + j := ⟨i - a.len, by omega⟩
    rw [getByte_add_mul_of_lt _ _ _ _ (Nat.mod_lt _ (pow256_pos a.len))]
    by_cases h2 : j < b.len
    · rw [if_pos (by omega), getByte_mod_low _ _ _ h2, Nat.add_sub_cancel_left]
    · rw [if_neg (by omega), getByte_mod_high _ _ _ (by omega)]

/-- Byte `i` of the little-endian packing of a byte list. -/
theorem getByte_bytesToNat :
    ∀ (l : List Nat) (i : Nat),
      getByte (bytesToNat l) i =
        if i < l.length then l.getD i 0 % 256 else 0 := by
  intro l
  induction l with
  | nil =>
    intro i
    rw [bytesToNat]
    simp [getByte_zero]
  | cons b rest ih =>
    intro i
    rw [bytesToNat]
    cases i with
    | zero =>
      rw [if_pos (by simp)]
      unfold getByte
      rw [pow_zero, Nat.div_one]
      simp [Nat.add_mul_mod_self_left]
    | succ j =>
      have h1 : getByte (b % 256 + 256 * bytesToNat rest) (j + 1) =
          getByte (bytesToNat rest) j := by
        unfold getByte
        have e1 : 256 ^ (j + 1) = 256 * 256 ^ j := by ring
        rw [e1, ← Nat.div_div_eq_div_mul]
        have e2 : (b % 256 + 256 * bytesToNat rest) / 256 = bytesToNat rest := by
          rw [Nat.mul_comm]
          rw [Nat.add_mul_div_right _ _ (by norm_num : (0:Nat) < 256)]
          rw [Nat.div_eq_of_lt (Nat.mod_lt _ (by norm_num))]
          omega
        rw [e2]
      rw [h1, ih j]
      simp only [List.length_cons, List.getD_cons_succ]
      by_cases h2 : j < rest.length
      · rw [if_pos h2, if_pos (by omega)]
      · rw [if_neg h2, if_neg (by omega)]

/-- Big-endian byte pair of a 16-bit value. -/
def beBytes2 (x : Nat) : List Nat := [x / 256 % 256, x % 256]

/-- Big-endian bytes of a 32-bit value. -/
def beBytes4 (x : Nat) : List Nat :=
  [x / 16777216 % 256, x / 65536 % 256, x / 256 % 256, x % 256]

/-- ASCII bytes of `"C64 CARTRIDGE   "`. -/
def CRT_SIG : List Nat :=
  [67, 54, 52, 32, 67, 65, 82, 84, 82, 73, 68, 71, 69, 32, 32, 32]

/-- ASCII upper-casing of one byte (`to_uppercase` restricted to ASCII). -/
def asciiUpper (b : Nat) : Nat := if 0x61 ≤ b ∧ b ≤ 0x7A then b - 0x20 else b

/-- The EasyFlash hardware constants of `CartridgeType`. -/
def easyflashHardwareType : Nat := 32
def easyflashExrom : Nat := 1
def easyflashGame : Nat := 0

/-- Mirrors `CRTBuilder` (EasyFlash): upper-cased name bytes, the
low-window banks, and the optional high-window banks. -/
structure CRTBuilder where
  name : List Nat
  banks : List Nat
  banks_romh : List (Option Nat)
  deriving Repr, DecidableEq

/-- Mirrors `CRTBuilder::new`: rejects zero banks and names longer than
32 characters, upper-cases the name, and creates zero-filled banks. -/
def CRTBuilder.new (name : List Nat) (initialBanks : Nat) : Option CRTBuilder :=
  if initialBanks = 0 then none
  else if 32 < name.length then none
  else some ⟨name.map asciiUpper, List.replicate initialBanks 0,
    List.replicate initialBanks none⟩

/-- Mirrors `create_file_header`: the 64-byte CRT file header, with the
field writes in source order. -/
def create_file_header (c : CRTBuilder) : ByteStream :=
  ⟨setBytes
    (setByte
      (setByte
        (setBytes
          (setBytes
            (setBytes
              (setBytes 0 0 (bytesToNat CRT_SIG) 16)
              16 (bytesToNat [0, 0, 0, 0x40]) 4)
            20 (bytesToNat [1, 0]) 2)
          22 (bytesToNat (beBytes2 easyflashHardwareType)) 2)
        24 easyflashExrom)
      25 easyflashGame)
    32 (bytesToNat (c.name.take 31)) (min c.name.length 31), 64⟩

/-- The 16 header bytes of a CHIP packet: `"CHIP"`, packet length (u32
BE), chip type 2 (u16 BE), bank number (u16 BE), start address (u16 BE),
data length (u16 BE). -/
def chipHeaderBytes (bank start len : Nat) : List Nat :=
  [67, 72, 73, 80] ++ beBytes4 (16 + len) ++ beBytes2 2 ++ beBytes2 bank ++
    beBytes2 start ++ beBytes2 len

/-- Mirrors `create_chip_packet`: 16-byte CHIP header then the payload. -/
def create_chip_packet (bank start : Nat) (data : ByteStream) : ByteStream :=
  bsAppend ⟨bytesToNat (chipHeaderBytes bank start data.len), 16⟩ data

def LOAD_ADDRESS_ROML : Nat := 0x8000
def LOAD_ADDRESS_ROMH : Nat := 0xE000
def BANK_SIZE_8K : Nat := 8192

/-- The CHIP packets of `generate_crt_data`: for each bank in order, the
low-window packet, then the high-window packet when present. -/
def chipPackets : List Nat → List (Option Nat) → Nat → ByteStream
  | [], _, _ => ⟨0, 0⟩
  | _ :: _, [], _ => ⟨0, 0⟩
  | bank :: rest, romh :: rrest, idx =>
    bsAppend
      (bsAppend (create_chip_packet idx LOAD_ADDRESS_ROML ⟨bank, BANK_SIZE_8K⟩)
        (match romh with
          | none => ⟨0, 0⟩
          | some r => create_chip_packet idx LOAD_ADDRESS_ROMH ⟨r, BANK_SIZE_8K⟩))
      (chipPackets rest rrest (idx + 1))

/-- Mirrors `generate_crt_data`: file header followed by the packets. -/
def generate_crt_data (c : CRTBuilder) : ByteStream :=
  bsAppend (create_file_header c) (chipPackets c.banks c.banks_romh 0)

end VSnap

namespace VSnap

theorem getD_take_eq (l : List Nat) :
    ∀ (n i : Nat), i < n → (l.take n).getD i 0 = l.getD i 0 := by
  induction l with
  | nil => intro n i _; simp
  | cons b rest ih =>
    intro n i hin
    cases n with
    | zero => omega
    | succ m =>
      rw [List.take_succ_cons]
      cases i with
      | zero => rfl
      | succ j =>
        rw [List.getD_cons_succ, List.getD_cons_succ]
        exact ih m j (by omega)

theorem getD_lt_bound (l : List Nat) (hb : ∀ x ∈ l, x < 256) :
    ∀ i, l.getD i 0 < 256 := by
  induction l with
  | nil => intro i; simp [List.getD]
  | cons b rest ih =>
    intro i
    cases i with
    | zero => rw [List.getD_cons_zero]; exact hb b (by simp)
    | succ j =>
      rw [List.getD_cons_succ]
      exact ih (fun x hx => hb x (by simp [hx])) j

/-- Bytes 0..15 of the file header are the `"C64 CARTRIDGE   "` signature. -/
theorem hdr_sig_byte (c : CRTBuilder) (b : Nat) (hb : b < 16) :
    getByte (create_file_header c).data b = CRT_SIG.getD b 0 := by
  unfold create_file_header
  dsimp only
  rw [getByte_setBytes, if_neg (by omega), getByte_setByte, if_neg (by omega),
    getByte_setByte, if_neg (by omega), getByte_setBytes, if_neg (by omega),
    getByte_setBytes, if_neg (by omega), getByte_setBytes, if_neg (by omega),
    getByte_setBytes, if_pos (by omega), Nat.sub_zero, getByte_bytesToNat]
  have hl : CRT_SIG.length = 16 := rfl
  rw [if_pos (by omega)]
  interval_cases b <;> decide

/-- Bytes 16..25 of the file header: header length, version, hardware
type, EXROM, GAME. -/
theorem hdr_fixed_bytes (c : CRTBuilder) :
    getByte (create_file_header c).data 16 = 0 ∧
    getByte (create_file_header c).data 17 = 0 ∧
    getByte (create_file_header c).data 18 = 0 ∧
    getByte (create_file_header c).data 19 = 0x40 ∧
    getByte (create_file_header c).data 20 = 0x01 ∧
    getByte (create_file_header c).data 21 = 0x00 ∧
    getByte (create_file_header c).data 22 = easyflashHardwareType / 256 % 256 ∧
    getByte (create_file_header c).data 23 = easyflashHardwareType % 256 ∧
    getByte (create_file_header c).data 24 = easyflashExrom ∧
    getByte (create_file_header c).data 25 = easyflashGame := by
  unfold create_file_header
  dsimp only
  refine ⟨?_, ?_, ?_, ?_, ?_, ?_, ?_, ?_, ?_, ?_⟩
  · rw [getByte_setBytes, if_neg (by omega), getByte_setByte, if_neg (by omega),
      getByte_setByte, if_neg (by omega), getByte_setBytes, if_neg (by omega),
      getByte_setBytes, if_neg (by omega), getByte_setBytes, if_pos (by omega)]
    decide
  · rw [getByte_setBytes, if_neg (by omega), getByte_setByte, if_neg (by omega),
      getByte_setByte, if_neg (by omega), getByte_setBytes, if_neg (by omega),
      getByte_setBytes, if_neg (by omega), getByte_setBytes, if_pos (by omega)]
    decide
  · rw [getByte_setBytes, if_neg (by omega), getByte_setByte, if_neg (by omega),
      getByte_setByte, if_neg (by omega), getByte_setBytes, if_neg (by omega),
      getByte_setBytes, if_neg (by omega), getByte_setBytes, if_pos (by omega)]
    decide
  · rw [getByte_setBytes, if_neg (by omega), getByte_setByte, if_neg (by omega),
      getByte_setByte, if_neg (by omega), getByte_setBytes, if_neg (by omega),
      getByte_setBytes, if_neg (by omega), getByte_setBytes, if_pos (by omega)]
    decide
  · rw [getByte_setBytes, if_neg (by omega), getByte_setByte, if_neg (by omega),
      getByte_setByte, if_neg (by omega), getByte_setBytes, if_neg (by omega),
      getByte_setBytes, if_pos (by omega)]
    decide
  · rw [getByte_setBytes, if_neg (by omega), getByte_setByte, if_neg (by omega),
      getByte_setByte, if_neg (by omega), getByte_setBytes, if_neg (by omega),
      getByte_setBytes, if_pos (by omega)]
    decide
  · rw [getByte_setBytes, if_neg (by omega), getByte_setByte, if_neg (by omega),
      getByte_setByte, if_neg (by omega), getByte_setBytes, if_pos (by omega)]
    decide
  · rw [getByte_setBytes, if_neg (by omega), getByte_setByte, if_neg (by omega),
      getByte_setByte, if_neg (by omega), getByte_setBytes, if_pos (by omega)]
    decide
  · rw [getByte_setBytes, if_neg (by omega), getByte_setByte, if_neg (by omega),
      getByte_setByte, if_pos (by omega)]
    decide
  · rw [getByte_setBytes, if_neg (by omega), getByte_setByte, if_pos (by omega)]
    decide

/-- Bytes 32.. of the file header: the name truncated to 31 bytes,
NUL-padded to the end of the header. -/
theorem hdr_name_byte (c : CRTBuilder) (i : Nat)
    (hbytes : ∀ x ∈ c.name, x < 256) (hi : i < 32) :
    getByte (create_file_header c).data (32 + i) =
      if i < min c.name.length 31 then c.name.getD i 0 else 0 := by
  unfold create_file_header
  dsimp only
  rw [getByte_setBytes]
  by_cases hn : i < min c.name.length 31
  · rw [if_pos (by omega), if_pos hn]
    have e1 : 32 + i - 32 = i := by omega
    rw [e1, getByte_bytesToNat]
    have hlen : (c.name.take 31).length = min 31 c.name.length :=
      List.length_take 31 c.name
    rw [if_pos (by omega), getD_take_eq c.name 31 i (by omega)]
    exact Nat.mod_eq_of_lt (getD_lt_bound c.name hbytes i)
  · rw [if_neg (by omega), if_neg hn]
    rw [getByte_setByte, if_neg (by omega), getByte_setByte, if_neg (by omega),
      getByte_setBytes, if_neg (by omega), getByte_setBytes, if_neg (by omega),
      getByte_setBytes, if_neg (by omega), getByte_setBytes, if_neg (by omega),
      getByte_zero]

/-- `CRTBuilder::new` stores the upper-cased name. -/
theorem new_name_upper (raw : List Nat) (n : Nat) (b : CRTBuilder)
    (h : CRTBuilder.new raw n = some b) : b.name = raw.map asciiUpper := by
  unfold CRTBuilder.new at h
  by_cases h1 : n = 0
  · rw [if_pos h1] at h; cases h
  · rw [if_neg h1] at h
    by_cases h2 : 32 < raw.length
    · rw [if_pos h2] at h; cases h
    · rw [if_neg h2] at h; cases h; rfl

/-- The CHIP packet layout: length, 16 header bytes, payload bytes. -/
theorem chip_packet_spec (bank start : Nat) (data : ByteStream) :
    (create_chip_packet bank start data).len = 16 + data.len ∧
    (∀ i, i < 16 → getByte (create_chip_packet bank start data).data i =
        (chipHeaderBytes bank start data.len).getD i 0) ∧
    (∀ i, i < data.len →
      getByte (create_chip_packet bank start data).data (16 + i) =
        getByte data.data i) := by
  refine ⟨rfl, ?_, ?_⟩
  · intro i hi
    unfold create_chip_packet
    rw [getByte_bsAppend]
    dsimp only
    rw [if_pos hi, getByte_bytesToNat]
    have hl : (chipHeaderBytes bank start data.len).length = 16 := by
      simp [chipHeaderBytes, beBytes2, beBytes4]
    rw [if_pos (by omega)]
    interval_cases i <;>
      simp [chipHeaderBytes, beBytes2, beBytes4,
        List.getD_cons_zero, List.getD_cons_succ]
  · intro i hi
    unfold create_chip_packet
    rw [getByte_bsAppend]
    dsimp only
    rw [if_neg (by omega), if_pos (by omega), Nat.add_sub_cancel_left]

end VSnap

namespace VSnap

/-- C5: for every cartridge builder, the emitted file header has the
`"C64 CARTRIDGE   "` signature at bytes 0..15, bytes 16..19 equal to
00 00 00 40, bytes 20..21 equal to 01 00, the hardware-type tag as u16
big-endian at bytes 22..23 (with EXROM/GAME at 24/25), and the
upper-cased NUL-terminated name starting at byte 32 (truncated to 31
bytes); each CHIP packet is 16 header bytes — "CHIP", packet length u32
BE (8208 for an 8 KiB bank), chip type 2, bank index, load address
($8000 low window, $E000 high window), data length 0x2000 — followed by
the payload bytes; and the whole file is the header followed by, for
each bank in order, the low-window packet then the optional high-window
packet. -/
theorem C5_crt_file_layout :
    (∀ (c : CRTBuilder) (b : Nat), b < 16 →
      getByte (create_file_header c).data b = CRT_SIG.getD b 0) ∧
    (∀ c : CRTBuilder,
      getByte (create_file_header c).data 16 = 0 ∧
      getByte (create_file_header c).data 17 = 0 ∧
      getByte (create_file_header c).data 18 = 0 ∧
      getByte (create_file_header c).data 19 = 0x40 ∧
      getByte (create_file_header c).data 20 = 0x01 ∧
      getByte (create_file_header c).data 21 = 0x00 ∧
      getByte (create_file_header c).data 22 = easyflashHardwareType / 256 % 256 ∧
      getByte (create_file_header c).data 23 = easyflashHardwareType % 256 ∧
      getByte (create_file_header c).data 24 = easyflashExrom ∧
      getByte (create_file_header c).data 25 = easyflashGame) ∧
    (∀ (c : CRTBuilder) (i : Nat), (∀ x ∈ c.name, x < 256) → i < 32 →
      getByte (create_file_header c).data (32 + i) =
        if i < min c.name.length 31 then c.name.getD i 0 else 0) ∧
    (∀ (raw : List Nat) (n : Nat) (b : CRTBuilder),
      CRTBuilder.new raw n = some b → b.name = raw.map asciiUpper) ∧
    (∀ (bank start : Nat) (data : ByteStream),
      (create_chip_packet bank start data).len = 16 + data.len ∧
      (∀ i, i < 16 → getByte (create_chip_packet bank start data).data i =
          (chipHeaderBytes bank start data.len).getD i 0) ∧
      (∀ i, i < data.len →
        getByte (create_chip_packet bank start data).data (16 + i) =
          getByte data.data i)) ∧
    chipHeaderBytes 3 LOAD_ADDRESS_ROML BANK_SIZE_8K =
      [67, 72, 73, 80, 0, 0, 0x20, 0x10, 0, 2, 0, 3, 0x80, 0, 0x20, 0] ∧
    chipHeaderBytes 3 LOAD_ADDRESS_ROMH BANK_SIZE_8K =
      [67, 72, 73, 80, 0, 0, 0x20, 0x10, 0, 2, 0, 3, 0xE0, 0, 0x20, 0] ∧
    (∀ c : CRTBuilder, generate_crt_data c =
      bsAppend (create_file_header c) (chipPackets c.banks c.banks_romh 0)) ∧
    (∀ (bank : Nat) (rest : List Nat) (romh : Option Nat)
        (rrest : List (Option Nat)) (idx : Nat),
      chipPackets (bank :: rest) (romh :: rrest) idx =
        bsAppend
          (bsAppend (create_chip_packet idx LOAD_ADDRESS_ROML ⟨bank, BANK_SIZE_8K⟩)
            (match romh with
              | none => (⟨0, 0⟩ : ByteStream)
              | some r => create_chip_packet idx LOAD_ADDRESS_ROMH ⟨r, BANK_SIZE_8K⟩))
          (chipPackets rest rrest (idx + 1))) :=
  ⟨hdr_sig_byte, hdr_fixed_bytes, hdr_name_byte, new_name_upper,
    chip_packet_spec, by decide, by decide, fun _ => rfl,
    fun _ _ _ _ _ => rfl⟩

/-- Concrete instances of the CRT layout: header bytes of a builder with
name "te", CHIP packet header and payload bytes of an empty bank, and
the upper-casing of a name passed through `CRTBuilder::new`. -/
theorem C5_crt_file_layout_witness :
    getByte (create_file_header ⟨[116, 101], [0], [none]⟩).data 0 = 67 ∧
    getByte (create_file_header ⟨[116, 101], [0], [none]⟩).data 33 = 101 ∧
    getByte (create_chip_packet 0 LOAD_ADDRESS_ROML ⟨0, BANK_SIZE_8K⟩).data 4 = 0 ∧
    getByte (create_chip_packet 0 LOAD_ADDRESS_ROML ⟨0, BANK_SIZE_8K⟩).data (16 + 5) = 0 ∧
    (CRTBuilder.mk [84, 69] [0] [none]).name = [116, 101].map asciiUpper := by
  refine ⟨?_, ?_, ?_, ?_, ?_⟩
  · rw [C5_crt_file_layout.1 ⟨[116, 101], [0], [none]⟩ 0 (by decide)]
    decide
  · rw [C5_crt_file_layout.2.2.1 ⟨[116, 101], [0], [none]⟩ 1 (by decide) (by decide)]
    decide
  · rw [(C5_crt_file_layout.2.2.2.2.1 0 LOAD_ADDRESS_ROML ⟨0, BANK_SIZE_8K⟩).2.1 4
      (by decide)]
    decide
  · rw [(C5_crt_file_layout.2.2.2.2.1 0 LOAD_ADDRESS_ROML ⟨0, BANK_SIZE_8K⟩).2.2 5
      (by decide)]
    decide
  · exact C5_crt_file_layout.2.2.2.1 [116, 101] 1 ⟨[84, 69], [0], [none]⟩ (by decide)

end VSnap

namespace VSnap

/-! ## File system manager (src/src/file_system_manager.rs)

`bank_usage` is modeled as an association list; the only observations the
code makes of the `HashMap` — lookup, insert, `min_by_key` over the bank
index of the filtered entries, and `contains_key` — are order-independent,
so the model is faithful. -/

def MAX_BANKS_PER_FILE : Nat := 8

/-- Mirrors `PRGFile` (the payload as a length-tagged byte value). -/
structure PRGFile where
  filename : List Nat
  load_address : Nat
  data : ByteStream
  deriving Repr, DecidableEq

/-- Mirrors `FileAllocation`. -/
structure FileAllocation where
  file : PRGFile
  banks : List Nat
  start_offset : Nat
  filename_offset : Nat
  deriving Repr, DecidableEq

inductive FsErr where
  | noMoreBanks
  | tooManyBanks
  deriving Repr, DecidableEq

def usageLookup : List (Nat × Nat) → Nat → Option Nat
  | [], _ => none
  | (b, u) :: rest, k => if b = k then some u else usageLookup rest k

def usageInsert : List (Nat × Nat) → Nat → Nat → List (Nat × Nat)
  | [], k, v => [(k, v)]
  | (b, u) :: rest, k, v =>
      if b = k then (k, v) :: rest else (b, u) :: usageInsert rest k v

/-- ASCII lower-casing of one byte (for `eq_ignore_ascii_case`). -/
def asciiLower (b : Nat) : Nat := if 0x41 ≤ b ∧ b ≤ 0x5A then b + 0x20 else b

/-- Mirrors `strip_prg_extension`: drop a trailing `.prg`/`.PRG`. -/
def strip_prg_extension (filename : List Nat) : List Nat :=
  if 4 < filename.length ∧
      (filename.drop (filename.length - 4)).map asciiLower = [46, 112, 114, 103]
  then filename.take (filename.length - 4)
  else filename

/-- The `current_bank` selection: the smallest bank index among the usage
entries that are available and not full (`min_by_key` over the map). -/
def currentBank (usage : List (Nat × Nat)) (available : List Nat) : Option Nat :=
  ((usage.filter (fun p =>
      available.contains p.1 && decide (p.2 < BANK_SIZE_8K) &&
        decide (0 < BANK_SIZE_8K - p.2))).map Prod.fst).foldr
    (fun b acc => match acc with
      | none => some b
      | some m => some (min b m)) none

/-- The spill loop of `allocate_file`: keep taking the first available
bank not yet in use while data remains, up to `MAX_BANKS_PER_FILE` banks
in total (`fuel` counts the banks that may still be added). -/
def spillLoop (available : List Nat) :
    Nat → Nat → List (Nat × Nat) → List Nat →
      Except FsErr (List Nat × List (Nat × Nat))
  | 0, remaining, usage, banks =>
      if 0 < remaining then .error .tooManyBanks else .ok (banks, usage)
  | fuel + 1, remaining, usage, banks =>
      if 0 < remaining then
        match available.find? (fun b => (usageLookup usage b).isNone) with
        | none => .error .noMoreBanks
        | some nb =>
            spillLoop available fuel (remaining - min remaining BANK_SIZE_8K)
              (usageInsert usage nb (min remaining BANK_SIZE_8K))
              (banks ++ [nb])
      else .ok (banks, usage)

/-- The body of `allocate_file` once the first bank is fixed: fit the
file in the remaining space of that bank or spill into fresh banks.
Returns (banks, start_offset, updated usage). -/
def allocGrow (file : PRGFile) (bank : Nat) (usage : List (Nat × Nat))
    (available : List Nat) :
    Except FsErr (List Nat × Nat × List (Nat × Nat)) :=
  let so := (usageLookup usage bank).getD 0
  if file.data.len ≤ BANK_SIZE_8K - so then
    .ok ([bank], so, usageInsert usage bank (so + file.data.len))
  else
    match spillLoop available (MAX_BANKS_PER_FILE - 1)
        (file.data.len - (BANK_SIZE_8K - so))
        (usageInsert usage bank BANK_SIZE_8K) [bank] with
    | .error e => .error e
    | .ok (banks, usage2) => .ok (banks, so, usage2)

/-- Bank selection and growth of `allocate_file` (everything except
attaching the file and the filename offset). -/
def allocate_fileCore (file : PRGFile) (usage0 : List (Nat × Nat))
    (available : List Nat) :
    Except FsErr (List Nat × Nat × List (Nat × Nat)) :=
  match currentBank usage0 available with
  | some bank => allocGrow file bank usage0 available
  | none =>
      match available.find? (fun b => (usageLookup usage0 b).isNone) with
      | none => .error .noMoreBanks
      | some nb => allocGrow file nb (usageInsert usage0 nb 0) available

/-- Mirrors `allocate_file`. -/
def allocate_file (file : PRGFile) (usage0 : List (Nat × Nat))
    (filename_offset : Nat) (available : List Nat) :
    Except FsErr (FileAllocation × List (Nat × Nat)) :=
  match allocate_fileCore file usage0 available with
  | .error e => .error e
  | .ok (banks, so, usage2) => .ok (⟨file, banks, so, filename_offset⟩, usage2)

/-- The loop of `allocate_files`, threading the usage map and the
cumulative filename offset. -/
def allocFilesGo : List PRGFile → List (Nat × Nat) → Nat → List Nat →
    Except FsErr (List FileAllocation)
  | [], _, _, _ => .ok []
  | f :: rest, usage, fno, available =>
    match allocate_file f usage fno available with
    | .error e => .error e
    | .ok (alloc, usage2) =>
      match allocFilesGo rest usage2
          (fno + (strip_prg_extension f.filename).length + 1) available with
      | .error e => .error e
      | .ok allocs => .ok (alloc :: allocs)

/-- Mirrors `allocate_files`. -/
def allocate_files (files : List PRGFile) (unused_banks : List Nat) :
    Except FsErr (List FileAllocation) :=
  allocFilesGo files [] 0 unused_banks

/-- The expected filename offsets: a running sum of the stripped name
lengths plus one NUL each. -/
def cumOffsets (fno : Nat) : List Nat → List Nat
  | [] => []
  | d :: rest => fno :: cumOffsets (fno + d) rest

theorem allocate_file_fno (f : PRGFile) (usage : List (Nat × Nat))
    (fno : Nat) (available : List Nat)
    (res : FileAllocation × List (Nat × Nat))
    (h : allocate_file f usage fno available = .ok res) :
    res.1.filename_offset = fno := by
  unfold allocate_file at h
  cases hc : allocate_fileCore f usage available with
  | error e => rw [hc] at h; cases h
  | ok v =>
    rw [hc] at h
    obtain ⟨banks, so, usage2⟩ := v
    cases h
    rfl

theorem allocFilesGo_offsets :
    ∀ (files : List PRGFile) (usage : List (Nat × Nat)) (fno : Nat)
      (available : List Nat) (allocs : List FileAllocation),
      allocFilesGo files usage fno available = .ok allocs →
      allocs.map FileAllocation.filename_offset =
        cumOffsets fno
          (files.map (fun f => (strip_prg_extension f.filename).length + 1)) := by
  intro files
  induction files with
  | nil =>
    intro usage fno available allocs h
    cases h
    rfl
  | cons f rest ih =>
    intro usage fno available allocs h
    unfold allocFilesGo at h
    cases ha : allocate_file f usage fno available with
    | error e => rw [ha] at h; cases h
    | ok v =>
      rw [ha] at h
      obtain ⟨alloc, usage2⟩ := v
      dsimp only at h
      cases hr : allocFilesGo rest usage2
          (fno + (strip_prg_extension f.filename).length + 1) available with
      | error e => rw [hr] at h; cases h
      | ok allocs2 =>
        rw [hr] at h
        cases h
        have h1 := allocate_file_fno f usage fno available (alloc, usage2) ha
        have h2 := ih usage2 (fno + (strip_prg_extension f.filename).length + 1)
          available allocs2 hr
        simp only [List.map_cons, cumOffsets]
        rw [Nat.add_assoc] at h2
        rw [h1, h2]

end VSnap

namespace VSnap

/-- C6 counterexample: with files of 5000 and 4000 bytes and available
banks [1, 2, 3], the second file is allocated banks [1, 2] — it starts
at offset 5000 of bank 1 and spills 808 bytes into bank 2, so it does
cross a bank boundary (5000 + 4000 > 8192 makes anything else
impossible). -/
theorem C6_counterexample :
    allocate_files
        [⟨[97, 46, 112, 114, 103], 0x0801, ⟨0, 5000⟩⟩,
         ⟨[98, 46, 112, 114, 103], 0x0801, ⟨0, 4000⟩⟩] [1, 2, 3] =
      .ok [⟨⟨[97, 46, 112, 114, 103], 0x0801, ⟨0, 5000⟩⟩, [1], 0, 0⟩,
           ⟨⟨[98, 46, 112, 114, 103], 0x0801, ⟨0, 4000⟩⟩, [1, 2], 5000, 2⟩] := by
  decide

/-- C6: for files "a.prg" (5000 bytes) and "b.prg" (4000 bytes) with
available banks [1, 2, 3], both files share bank 1 — the first at offset
0, the second at offset 5000 — and the second file spills into bank 2
(its banks are [1, 2]); and in general every allocation's
filename-offset field equals the cumulative length, including the NUL
terminator, of all prior extension-stripped names. -/
theorem C6_allocation_scenario :
    (allocate_files
        [⟨[97, 46, 112, 114, 103], 0x0801, ⟨0, 5000⟩⟩,
         ⟨[98, 46, 112, 114, 103], 0x0801, ⟨0, 4000⟩⟩] [1, 2, 3] =
      .ok [⟨⟨[97, 46, 112, 114, 103], 0x0801, ⟨0, 5000⟩⟩, [1], 0, 0⟩,
           ⟨⟨[98, 46, 112, 114, 103], 0x0801, ⟨0, 4000⟩⟩, [1, 2], 5000, 2⟩]) ∧
    (∀ (f : PRGFile) (usage : List (Nat × Nat)) (fno : Nat)
        (available : List Nat) (res : FileAllocation × List (Nat × Nat)),
      allocate_file f usage fno available = .ok res →
      res.1.filename_offset = fno) ∧
    (∀ (files : List PRGFile) (allocs : List FileAllocation)
        (unused_banks : List Nat),
      allocate_files files unused_banks = .ok allocs →
      allocs.map FileAllocation.filename_offset =
        cumOffsets 0
          (files.map (fun f => (strip_prg_extension f.filename).length + 1))) :=
  ⟨by decide, allocate_file_fno,
    fun files allocs unused_banks h =>
      allocFilesGo_offsets files [] 0 unused_banks allocs h⟩

/-- Concrete instance: allocating a single 5000-byte file "a.prg" into
bank 1 yields filename offset 0, matching the cumulative-offset list. -/
theorem C6_allocation_scenario_witness :
    [(⟨⟨[97, 46, 112, 114, 103], 0x0801, ⟨0, 5000⟩⟩, [1], 0, 0⟩ :
        FileAllocation)].map FileAllocation.filename_offset =
      cumOffsets 0
        ([(⟨[97, 46, 112, 114, 103], 0x0801, ⟨0, 5000⟩⟩ : PRGFile)].map
          (fun f => (strip_prg_extension f.filename).length + 1)) :=
  C6_allocation_scenario.2.2
    [⟨[97, 46, 112, 114, 103], 0x0801, ⟨0, 5000⟩⟩]
    [⟨⟨[97, 46, 112, 114, 103], 0x0801, ⟨0, 5000⟩⟩, [1], 0, 0⟩]
    [1] (by decide)

end VSnap

namespace VSnap

/-! ## Memory patcher (src/src/patch_mem.rs) -/

inductive PatchError where
  | allocationFailed
  | stackTooLow
  | codeTooLarge
  deriving Repr, DecidableEq

structure BlockAllocation where
  address : Nat
  original_value : Nat
  size : Nat
  deriving Repr, DecidableEq

structure PatchMem where
  blocks : List BlockAllocation
  block9_addr : Nat
  deriving Repr, DecidableEq

/-- One copy loop of `generate_block9_core`: `LDX #31`, then
`LDA src,X; STA dst,X; DEX; BPL loop`. The branch displacement is
`loop_start - (len + 2) = -9 = 0xF7` at every loop. -/
def copyLoopFrag (src dst : Nat) : List Nat :=
  [0xA2, 31, 0xBD, src % 256, src / 256 % 256,
   0x9D, dst % 256, dst / 256 % 256, 0xCA, 0x10, 0xF7]

/-- One clean loop of `generate_block9_core`: `LDA #value; LDX #0`, then
`STA addr,X; INX; CPX #size; BNE fill` (displacement `-8 = 0xF8`). -/
def cleanLoopFrag (addr size value : Nat) : List Nat :=
  [0xA9, value, 0xA2, 0x00, 0x9D, addr % 256, addr / 256 % 256,
   0xE8, 0xE0, size % 256, 0xD0, 0xF8]

/-- Mirrors `generate_block9_core`: copy blocks 1-8 back to
`$0100-$01FF`, restore `$FFF0-$FFFF` from block 1 offset 32, then clean
blocks 1-8 with their original values. -/
def generate_block9_core (blocks : List BlockAllocation) :
    Except PatchError (List Nat) :=
  if (blocks.take 8).any (fun b => 256 < b.size) then .error .codeTooLarge
  else .ok (
    ((List.range 8).map (fun i =>
      copyLoopFrag (blocks.getD i ⟨0, 0, 0⟩).address (0x100 + i * 32))).flatten ++
    [0xA2, 0x0F, 0xBD, ((blocks.getD 0 ⟨0, 0, 0⟩).address + 32) % 256,
      ((blocks.getD 0 ⟨0, 0, 0⟩).address + 32) / 256 % 256,
      0x9D, 0xF0, 0xFF, 0xCA, 0x10, 0xF7] ++
    ((List.range 8).map (fun i =>
      cleanLoopFrag (blocks.getD i ⟨0, 0, 0⟩).address
        (blocks.getD i ⟨0, 0, 0⟩).size
        (blocks.getD i ⟨0, 0, 0⟩).original_value)).flatten)

/-- Mirrors `generate_block9_final`: the core, then `LDA #v; STA $F8+i`
for the eight preserved zero-page bytes, then the placeholder
`JMP $0000`. -/
def generate_block9_final (blocks : List BlockAllocation) (f8_ff : Nat) :
    Except PatchError (List Nat) :=
  match generate_block9_core blocks with
  | .error e => .error e
  | .ok code => .ok (code ++
      ((List.range 8).map (fun i => [0xA9, getByte f8_ff i, 0x85, 0xF8 + i])).flatten ++
      [0x4C, 0x00, 0x00])

/-- Mirrors `generate_block10`: restore SP, wipe block 9 (displacement
`-8 = 0xF8`), restore `$00`, push the RTI frame, preload A/X/Y, and the
placeholder `JMP $0000`. -/
def generate_block10 (snap : C64Snapshot)
    (block9_addr block9_size block9_fill block10_size : Nat) :
    Except PatchError (List Nat) :=
  .ok ([0xA2, snap.cpu.sp, 0x9A] ++
    (if 0 < block9_size ∧ block9_size ≤ 256 then
      [0xA9, block9_fill, 0xA2, 0x00, 0x9D, block9_addr % 256,
       block9_addr / 256 % 256, 0xE8, 0xE0, block9_size % 256, 0xD0, 0xF8]
    else []) ++
    [0xA9, snap.mem.cpu_port_dir, 0x85, 0x00] ++
    [0xA9, snap.cpu.pc / 256 % 256, 0x48,
     0xA9, snap.cpu.pc % 256, 0x48,
     0xA9, snap.cpu.p, 0x48] ++
    [0xA9, 0x00] ++
    [0xA2, snap.mem.cpu_port_data] ++
    (if block10_size = 256 ∨ 128 < block10_size then [0xA0, 0xFF]
     else [0xA0, (block10_size - 1) % 256]) ++
    [0x4C, 0x00, 0x00])

/-- Mirrors `generate_restore_code`: wipe block 10 with the preloaded
A/Y (displacement `-6 = 0xFA`), restore `$01`, the VIC/CIA interrupt and
timer setup, reload X/Y/A, and `RTI`. -/
def generate_restore_code (snap : C64Snapshot)
    (block10_addr block10_size : Nat) : Except PatchError (List Nat) :=
  .ok ([0x99, block10_addr % 256, block10_addr / 256 % 256, 0x88,
        if block10_size = 256 ∨ 128 < block10_size then 0x10 else 0xD0,
        0xFA] ++
    [0x86, 0x01] ++
    [0xA9, 0x00, 0x8D, 0x1A, 0xD0] ++
    [0xA9, 0xFF, 0x8D, 0x19, 0xD0] ++
    [0xAD, 0x0D, 0xDC] ++ [0xAD, 0x0D, 0xDD] ++
    [0xA9, 0xFF, 0x8D, 0x19, 0xD0] ++
    [0xA9, getByte snap.vic.registers 0x1A, 0x8D, 0x1A, 0xD0] ++
    [0xAD, 0x0D, 0xDC] ++ [0xAD, 0x0D, 0xDD] ++
    (if snap.cia1.ier ≠ 0 then
      [0xA9, Nat.lor snap.cia1.ier 0x80, 0x8D, 0x0D, 0xDC] else []) ++
    (if snap.cia2.ier ≠ 0 then
      [0xA9, Nat.lor snap.cia2.ier 0x80, 0x8D, 0x0D, 0xDD] else []) ++
    [0xA9, snap.cia1.cra, 0x8D, 0x0E, 0xDC,
     0xA9, snap.cia1.crb, 0x8D, 0x0F, 0xDC,
     0xA9, snap.cia2.cra, 0x8D, 0x0E, 0xDD,
     0xA9, snap.cia2.crb, 0x8D, 0x0F, 0xDD] ++
    [0xA2, snap.cpu.x, 0xA0, snap.cpu.y, 0xA9, snap.cpu.a] ++
    [0x40])

/-- The loop allocating blocks 1-8 in `PatchMem::new`. -/
def allocBlocks : List Nat → FindRam → Option (List BlockAllocation × FindRam)
  | [], fr => some ([], fr)
  | sz :: rest, fr =>
    match fr.allocate sz with
    | (none, _) => none
    | (some (addr, value), fr2) =>
      match allocBlocks rest fr2 with
      | none => none
      | some (bs, fr3) => some (⟨addr, value, sz⟩ :: bs, fr3)

/-- Mirrors `PatchMem::new`: allocate blocks 1-8 and blocks 9/10, patch
the JMP chain, write the restore code into `$01xx`, preserve
`$0100-$01FF` / `$FFF0-$FFFF` / `$F8-$FF` into blocks 1-8 (after the
restore code is patched in, as the source does), and write blocks 9 and
10. Returns the patch record, the patched RAM, and the allocator. -/
def PatchMem.new (snap : C64Snapshot) (ram : Mem) (fr : FindRam) :
    Except PatchError (PatchMem × Mem × FindRam) :=
  match allocBlocks [48, 40, 32, 32, 32, 32, 32, 32] fr with
  | none => .error .allocationFailed
  | some (blocks, fr1) =>
    match generate_block9_final blocks (readRange ram 0xF8 8) with
    | .error e => .error e
    | .ok block9_code =>
      if 255 < block9_code.length then .error .codeTooLarge
      else
        match fr1.allocate block9_code.length with
        | (none, _) => .error .allocationFailed
        | (some (block9_addr, block9_fill), fr2) =>
          match generate_block10 snap block9_addr block9_code.length
              block9_fill 0 with
          | .error e => .error e
          | .ok temp10 =>
            if 255 < temp10.length then .error .codeTooLarge
            else
              match fr2.allocate temp10.length with
              | (none, _) => .error .allocationFailed
              | (some (block10_addr, block10_fill), fr3) =>
                match generate_block10 snap block9_addr block9_code.length
                    block9_fill temp10.length with
                | .error e => .error e
                | .ok block10_code =>
                  match generate_restore_code snap block10_addr
                      temp10.length with
                  | .error e => .error e
                  | .ok restore_code =>
                    let code_len := restore_code.length
                    let ideal_start :=
                      (0x100 + (snap.cpu.sp - 6)) - code_len
                    if ideal_start < 0x100 ∧ 0x200 - code_len < 0x100 then
                      .error .codeTooLarge
                    else
                      let code_start :=
                        if ideal_start < 0x100 then 0x200 - code_len
                        else ideal_start
                      let block9p := block9_code.take (block9_code.length - 2) ++
                        [block10_addr % 256, block10_addr / 256 % 256]
                      let block10p := block10_code.take (block10_code.length - 2) ++
                        [code_start % 256, code_start / 256 % 256]
                      let ram1 := setBytes ram code_start
                        (bytesToNat restore_code) code_len
                      let b0 := (blocks.getD 0 ⟨0, 0, 0⟩).address
                      let ram2 := setBytes ram1 b0
                        (readRange ram1 0x100 32 +
                          readRange ram1 0xFFF0 16 * 256 ^ 32) 48
                      let b1 := (blocks.getD 1 ⟨0, 0, 0⟩).address
                      let ram3 := setBytes ram2 b1
                        (readRange ram2 0x120 32 +
                          readRange ram2 0xF8 8 * 256 ^ 32) 40
                      let ram4 := setBytes ram3 (blocks.getD 2 ⟨0, 0, 0⟩).address
                        (readRange ram3 0x140 32) 32
                      let ram5 := setBytes ram4 (blocks.getD 3 ⟨0, 0, 0⟩).address
                        (readRange ram4 0x160 32) 32
                      let ram6 := setBytes ram5 (blocks.getD 4 ⟨0, 0, 0⟩).address
                        (readRange ram5 0x180 32) 32
                      let ram7 := setBytes ram6 (blocks.getD 5 ⟨0, 0, 0⟩).address
                        (readRange ram6 0x1A0 32) 32
                      let ram8 := setBytes ram7 (blocks.getD 6 ⟨0, 0, 0⟩).address
                        (readRange ram7 0x1C0 32) 32
                      let ram9 := setBytes ram8 (blocks.getD 7 ⟨0, 0, 0⟩).address
                        (readRange ram8 0x1E0 32) 32
                      let ram10 := setBytes ram9 block9_addr
                        (bytesToNat block9p) block9p.length
                      let ram11 := setBytes ram10 block10_addr
                        (bytesToNat block10p) block10p.length
                      .ok (⟨blocks ++
                          [⟨block9_addr, block9_fill, block9_code.length⟩,
                           ⟨block10_addr, block10_fill, temp10.length⟩],
                          block9_addr⟩, ram11, fr3)

end VSnap

namespace VSnap

/-! ## A 6502 interpreter for the emitted restore routines -/

structure St where
  pc : Nat
  a : Nat
  x : Nat
  y : Nat
  sp : Nat
  n : Bool
  z : Bool
  ram : Mem
  halted : Bool
  deriving Repr, DecidableEq

/-- Branch destination of a taken relative branch at `pc` with
displacement byte `rel` (two's complement). -/
def relDest (pc rel : Nat) : Nat :=
  if 128 ≤ rel then (pc + 2 + rel + 65280) % 65536 else (pc + 2 + rel) % 65536

/-- One instruction step over the opcode subset the emitted routines
use. `RTI` sets `halted` (the simulation observes the state at the
return into the snapshot program). An unknown opcode also halts. -/
def step (s : St) : St :=
  if s.halted then s
  else
    let b1 := getByte s.ram (s.pc + 1)
    let b2 := getByte s.ram (s.pc + 2)
    let ab := b1 + 256 * b2
    match getByte s.ram s.pc with
    | 0xA9 =>
      { s with
        pc := s.pc + 2, a := b1, z := decide (b1 = 0), n := decide (128 ≤ b1) }
    | 0xA2 =>
      { s with
        pc := s.pc + 2, x := b1, z := decide (b1 = 0), n := decide (128 ≤ b1) }
    | 0xA0 =>
      { s with
        pc := s.pc + 2, y := b1, z := decide (b1 = 0), n := decide (128 ≤ b1) }
    | 0x85 => { s with pc := s.pc + 2, ram := setByte s.ram b1 s.a }
    | 0x86 => { s with pc := s.pc + 2, ram := setByte s.ram b1 s.x }
    | 0x8D => { s with pc := s.pc + 3, ram := setByte s.ram ab s.a }
    | 0xAD =>
      let v := getByte s.ram ab
      { s with
        pc := s.pc + 3, a := v, z := decide (v = 0), n := decide (128 ≤ v) }
    | 0xBD =>
      let v := getByte s.ram ((ab + s.x) % 65536)
      { s with
        pc := s.pc + 3, a := v, z := decide (v = 0), n := decide (128 ≤ v) }
    | 0x9D => { s with pc := s.pc + 3, ram := setByte s.ram ((ab + s.x) % 65536) s.a }
    | 0x99 => { s with pc := s.pc + 3, ram := setByte s.ram ((ab + s.y) % 65536) s.a }
    | 0xCA =>
      let v := (s.x + 255) % 256
      { s with
        pc := s.pc + 1, x := v, z := decide (v = 0), n := decide (128 ≤ v) }
    | 0x88 =>
      let v := (s.y + 255) % 256
      { s with
        pc := s.pc + 1, y := v, z := decide (v = 0), n := decide (128 ≤ v) }
    | 0xE8 =>
      let v := (s.x + 1) % 256
      { s with
        pc := s.pc + 1, x := v, z := decide (v = 0), n := decide (128 ≤ v) }
    | 0xE0 =>
      { s with
        pc := s.pc + 2, z := decide (s.x = b1),
        n := decide (128 ≤ (s.x + 256 - b1) % 256) }
    | 0xD0 => { s with pc := if s.z then s.pc + 2 else relDest s.pc b1 }
    | 0x10 => { s with pc := if s.n then s.pc + 2 else relDest s.pc b1 }
    | 0x4C => { s with pc := ab }
    | 0x9A => { s with pc := s.pc + 1, sp := s.x }
    | 0x48 =>
      { s with
        pc := s.pc + 1, ram := setByte s.ram (0x100 + s.sp) s.a,
        sp := (s.sp + 255) % 256 }
    | 0x40 =>
      let p := getByte s.ram (0x100 + (s.sp + 1) % 256)
      let pcl := getByte s.ram (0x100 + (s.sp + 2) % 256)
      let pch := getByte s.ram (0x100 + (s.sp + 3) % 256)
      { s with
        pc := pcl + 256 * pch, sp := (s.sp + 3) % 256,
        n := decide (128 ≤ p), z := decide (p / 2 % 2 = 1), halted := true }
    | _ => { s with halted := true }

/-- Fuel-indexed run of `step`. The state is destructed and the numeric
fields forced by a vacuous `if` at every step, so that evaluating a long
run keeps the state a value instead of nesting thunks; `run_eq_iterate`
shows this is just `step` iterated. -/
def run : Nat → St → St
  | 0, s => s
  | fuel + 1, s =>
    match step s with
    | ⟨pc, a, x, y, sp, n, z, ram, halted⟩ =>
      if pc + a + x + y + sp + ram % 2 = 0 then
        run fuel ⟨pc, a, x, y, sp, n, z, ram, halted⟩
      else
        run fuel ⟨pc, a, x, y, sp, n, z, ram, halted⟩

theorem run_eq_iterate : ∀ (n : Nat) (s : St), run n s = step^[n] s := by
  intro n
  induction n with
  | zero => intro s; rfl
  | succ m ih =>
    intro s
    rw [Function.iterate_succ_apply]
    show run (m + 1) s = step^[m] (step s)
    unfold run
    cases step s with
    | mk pc a x y sp n z ram halted =>
      dsimp only
      split
      · exact ih _
      · exact ih _

end VSnap

namespace VSnap

/-- The concrete snapshot of the C1 scenario: all-zero RAM, SP = $FB,
PC = $1234, P = $27, A/X/Y = $11/$22/$33, CPU port $2F/$37, VIC
interrupt-enable register $01, CIA1 ier/cra/crb = $01/$03/$04, CIA2
ier/cra/crb = $02/$05/$06. -/
def snapEx : C64Snapshot :=
  ⟨⟨0x11, 0x22, 0x33, 0xFB, 0x1234, 0x27⟩,
   ⟨0x37, 0x2F, 0⟩,
   ⟨256 ^ 26, 0⟩,
   ⟨0, 0, 0, 0, 0, 0, 0, 0, 0, 0, 0, 0, 0x03, 0x04, 0x01⟩,
   ⟨0, 0, 0, 0, 0, 0, 0, 0, 0, 0, 0, 0, 0x05, 0x06, 0x02⟩,
   ⟨0⟩⟩

/-- The allocator state for the all-zero RAM: the single free run
(`new_allzero` identifies it with `FindRam.new 0`). -/
def frInit : FindRam := ⟨[⟨0x200, 0, 0xFDF0⟩]⟩

def patchEx : Except PatchError (PatchMem × Mem × FindRam) :=
  PatchMem.new snapEx 0 frInit

def pmEx : PatchMem :=
  match patchEx with
  | .ok (pm, _, _) => pm
  | .error _ => ⟨[], 0⟩

def ramEx : Mem :=
  match patchEx with
  | .ok (_, r, _) => r
  | .error _ => 0

def frEx : FindRam :=
  match patchEx with
  | .ok (_, _, fr) => fr
  | .error _ => ⟨[]⟩

def runEx : St := run 3360 ⟨0x318, 0, 0, 0, 0, false, false, ramEx, false⟩

end VSnap

namespace VSnap

def restoreCodeEx : List Nat :=
  match generate_restore_code snapEx 0x3FE 37 with
  | .ok l => l
  | .error _ => []

def expectedRamEx : Mem :=
  setByte (setByte (setByte (setByte (setByte (setByte (setByte (setByte
    (setByte (setByte (setByte (setByte
      (setBytes (setByte (setByte 0 0 0x2F) 1 0x37)
        0x1A8 (bytesToNat restoreCodeEx) 77)
      0x1F9 0x27) 0x1FA 0x34) 0x1FB 0x12) 0x3FE 0xA2)
    0xD019 0xFF) 0xD01A 0x01) 0xDC0D 0x81) 0xDC0E 0x03) 0xDC0F 0x04)
    0xDD0D 0x82) 0xDD0E 0x05) 0xDD0F 0x06

set_option maxRecDepth 100000 in
set_option maxHeartbeats 40000000 in
/-- C1 (amended to the concrete scenario): for the all-zero snapshot
with SP=$FB, PC=$1234, P=$27, A/X/Y=$11/$22/$33, patching succeeds with
blocks 1-8 at $0200..$0318, block 9 at $0318 (230 bytes) and block 10 at
$03FE (37 bytes), and simulating the emitted routines from block 9 halts
at the RTI with PC/SP/A/X/Y restored to the snapshot values and the
final RAM equal to the snapshot RAM except exactly: the restore-code
window $01A8-$01F4, the three RTI-frame bytes $01F9-$01FB, the CPU-port
bytes $00/$01, the VIC/CIA I/O register bytes, and block 10's first byte
$03FE, which keeps the code byte $A2 because the wipe loop's BNE skips
offset 0. In particular $00F8-$00FF, $FFF0-$FFFF, all of $0100-$01FF
outside the code window and frame, and blocks 1-9 are restored. -/
theorem C1_restore_simulation :
    FindRam.new 0 = frInit ∧
    patchEx = .ok (pmEx, ramEx, frEx) ∧
    pmEx = ⟨[⟨0x200, 0, 48⟩, ⟨0x230, 0, 40⟩, ⟨0x258, 0, 32⟩, ⟨0x278, 0, 32⟩,
      ⟨0x298, 0, 32⟩, ⟨0x2B8, 0, 32⟩, ⟨0x2D8, 0, 32⟩, ⟨0x2F8, 0, 32⟩,
      ⟨0x318, 0, 230⟩, ⟨0x3FE, 0, 37⟩], 0x318⟩ ∧
    runEx = ⟨0x1234, 0x11, 0x22, 0x33, 0xFB, false, true, expectedRamEx, true⟩ := by
  refine ⟨new_allzero, by decide, by decide⟩

set_option maxRecDepth 100000 in
set_option maxHeartbeats 40000000 in
/-- C1 counterexample: for the all-zero snapshot, allocation succeeds,
yet after simulating the emitted routines the byte at $01A8 (inside
$0100-$01FF) is $99 — the first restore-code byte — instead of the
pre-patch snapshot value 0, and block 10 (allocated at $03FE with
original run byte 0) has first byte $A2 instead of its run byte. -/
theorem C1_counterexample :
    getByte snapEx.mem.ram 0x1A8 = 0 ∧
    getByte snapEx.mem.ram 0x3FE = 0 ∧
    patchEx = .ok (pmEx, ramEx, frEx) ∧
    pmEx.blocks.getD 9 ⟨0, 0, 0⟩ = ⟨0x3FE, 0, 37⟩ ∧
    getByte runEx.ram 0x1A8 = 0x99 ∧
    getByte runEx.ram 0x3FE = 0xA2 := by
  decide

end VSnap
